import Mathlib

/-!
# Tofukit provider: project aggregation, kit encoding and registry

A shallow embedding of the Go sources of the provider

* `internal/schemas/common.go`, `internal/schemas/kits.go` (requirement and kit models,
  `ToObjectValue`),
* `internal/resources/base_component.go`, `internal/registry/registry.go` (registry),
* `internal/resources/components.go`, `internal/resources/language.go`,
  `internal/resources/blueprint.go` (kit resources),
* `internal/resources/project_final.go`, `internal/resources/project_auto.go`,
  `internal/resources/project_simplified.go` (project resources and their
  `writeOutputFile`),
* `internal/provider/provider.go` (provider configuration).

Conventions of the embedding.

* A framework value (`types.String`, `types.Int64`, `types.List`, `types.Object`,
  `types.Map`) is null, unknown or known.  The attribute types a framework value carries
  are not modelled: the sources never inspect them.
* A Go slice is a `List` (a nil slice and an empty slice are both `[]`); a Go `int64` that is
  only copied is an `Int`.
* A Go `map[string]...` that the code builds is an association list updated with `mapSet`;
  a map that the code ranges over is an association list whose order stands for the order in
  which the Go runtime happens to iterate.
* The document handed to `json.MarshalIndent` is a `GoMap`, a tree of `GoValue`s; the calls
  into the operating system and the log are recorded as a list of `Effect`s, the outcomes of
  the operating system calls being parameters (`Os`).
* A failed unchecked type assertion is the error of an `Except`.
* `json.MarshalIndent` writes the entries of every Go map sorted by key; `marshalForm` is
  the document in that order.
-/

namespace Tofukit

/-! ## Framework values -/

/-- Framework `types.String`. -/
inductive TfString where
  | null
  | unknown
  | value (s : String)
deriving DecidableEq, Repr

/-- Method `IsNull` of `types.String`. -/
def TfString.IsNull : TfString → Bool
  | .null => true
  | _ => false

/-- Method `IsUnknown` of `types.String`. -/
def TfString.IsUnknown : TfString → Bool
  | .unknown => true
  | _ => false

/-- Method `ValueString` of `types.String`: the empty string when null or unknown. -/
def TfString.ValueString : TfString → String
  | .value s => s
  | _ => ""

/-- Framework `types.Int64`. -/
inductive TfInt64 where
  | null
  | unknown
  | value (n : Int)
deriving DecidableEq, Repr

/-- Method `IsNull` of `types.Int64`. -/
def TfInt64.IsNull : TfInt64 → Bool
  | .null => true
  | _ => false

/-- Method `IsUnknown` of `types.Int64`. -/
def TfInt64.IsUnknown : TfInt64 → Bool
  | .unknown => true
  | _ => false

/-- Method `ValueInt64` of `types.Int64`: zero when null or unknown. -/
def TfInt64.ValueInt64 : TfInt64 → Int
  | .value n => n
  | _ => 0

/-- Framework `types.List` over elements of type `α`. -/
inductive TfList (α : Type) where
  | null
  | unknown
  | value (elems : List α)

/-- Framework `types.Object` over attribute values of type `α`. -/
inductive TfObject (α : Type) where
  | null
  | unknown
  | value (attrs : List (String × α))

/-- Framework `types.Map` over elements of type `α`. -/
inductive TfMap (α : Type) where
  | null
  | unknown
  | value (elems : List (String × α))

/-- Framework `attr.Value`: the dynamically typed values found in attribute maps. -/
inductive AttrValue where
  | string (s : TfString)
  | int64 (n : TfInt64)
  | bool (b : Option Bool)
  | list (l : TfList AttrValue)
  | object (o : TfObject AttrValue)
  | map (m : TfMap AttrValue)

/-- Method `IsNull` of `types.List`. -/
def TfList.IsNull {α : Type} : TfList α → Bool
  | .null => true
  | _ => false

/-- Method `IsUnknown` of `types.List`. -/
def TfList.IsUnknown {α : Type} : TfList α → Bool
  | .unknown => true
  | _ => false

/-- Method `Elements` of `types.List`: no element when null or unknown. -/
def TfList.Elements {α : Type} : TfList α → List α
  | .value elems => elems
  | _ => []

/-- Method `IsNull` of `types.Object`. -/
def TfObject.IsNull {α : Type} : TfObject α → Bool
  | .null => true
  | _ => false

/-- Method `Attributes` of `types.Object`: no attribute when null or unknown. -/
def TfObject.Attributes {α : Type} : TfObject α → List (String × α)
  | .value attrs => attrs
  | _ => []

/-- Method `IsNull` of `types.Map`. -/
def TfMap.IsNull {α : Type} : TfMap α → Bool
  | .null => true
  | _ => false

/-- Method `IsUnknown` of `types.Map`. -/
def TfMap.IsUnknown {α : Type} : TfMap α → Bool
  | .unknown => true
  | _ => false

/-- Method `Elements` of `types.Map`: no element when null or unknown. -/
def TfMap.Elements {α : Type} : TfMap α → List (String × α)
  | .value elems => elems
  | _ => []

/-- Go index expression `attrs[key]` on a `map[string]attr.Value`: `none` is the nil
interface a missing key yields. -/
def attrIndex (attrs : List (String × AttrValue)) (key : String) : Option AttrValue :=
  attrs.lookup key

/-- Go type assertion `v.(types.String)` with its `ok` result. -/
def assertString : Option AttrValue → Option TfString
  | some (.string s) => some s
  | _ => none

/-- Go type assertion `v.(types.Int64)` with its `ok` result. -/
def assertInt64 : Option AttrValue → Option TfInt64
  | some (.int64 n) => some n
  | _ => none

/-- Go type assertion `v.(types.List)` with its `ok` result. -/
def assertList : Option AttrValue → Option (TfList AttrValue)
  | some (.list l) => some l
  | _ => none

/-- Go type assertion `v.(types.Object)` with its `ok` result. -/
def assertObject : Option AttrValue → Option (TfObject AttrValue)
  | some (.object o) => some o
  | _ => none

/-! ## Go values stored in `interface{}` -/

/-- Go values that the writers store in a `map[string]interface{}`, one constructor for
each dynamic type that occurs.  Slices and maps built by the code are never nil, so
`json.MarshalIndent` renders `strings []` and `maps []` as `[]` and an empty map as an
empty JSON object. -/
inductive GoValue where
  | string (s : String)
  | int64 (n : Int)
  | strings (xs : List String)
  | stringMap (m : List (String × String))
  | maps (xs : List (List (String × GoValue)))
  | map (m : List (String × GoValue))

/-- Go `map[string]interface{}`. -/
abbrev GoMap := List (String × GoValue)

/-- Go assignment `m[key] = v` on a map with values of type `α`. -/
def mapSet {α : Type} : List (String × α) → String → α → List (String × α)
  | [], key, v => [(key, v)]
  | (k, w) :: rest, key, v =>
    if k = key then (k, v) :: rest else (k, w) :: mapSet rest key v

/-- Go index expression `m[key]` with its `ok` result. -/
def mapGet {α : Type} (m : List (String × α)) (key : String) : Option α :=
  m.lookup key

/-- Keys of a Go map. -/
def mapKeys {α : Type} (m : List (String × α)) : List String :=
  m.map Prod.fst

/-! ## Models (`internal/schemas/common.go`, `internal/schemas/kits.go`) -/

/-- Struct `VerificationModel`. -/
structure VerificationModel where
  Command : TfString
  Expect : TfString
deriving DecidableEq, Repr

/-- Struct `RequirementModel`; `Verification` is a pointer, `none` being nil. -/
structure RequirementModel where
  Name : TfString
  Priority : TfInt64
  Instructions : List TfString
  Verification : Option VerificationModel
deriving DecidableEq, Repr

/-- Struct `KitModel`; the field `Type` is written `Type_`, a reserved word in Lean. -/
structure KitModel where
  ID : TfString
  Type_ : TfString
  Name : TfString
  Description : TfString
  Version : TfString
  Requirements : List RequirementModel
deriving DecidableEq, Repr

/-- Method `VerificationModel.ToObjectValue`: `types.ObjectValue` cannot fail here, both
attributes being strings as `VerificationModelType` declares. -/
def VerificationModel.ToObjectValue (v : VerificationModel) : Except String (TfObject AttrValue) :=
  .ok (.value [("command", .string v.Command), ("expect", .string v.Expect)])

/-- Method `RequirementModel.ToObjectValue`: the attributes written are `name`,
`instructions` and `verification`, as `RequirementModelType` declares; `types.ObjectValue`
cannot fail on them, so only an error of the verification is passed on. -/
def RequirementModel.ToObjectValue (r : RequirementModel) : Except String (TfObject AttrValue) :=
  let instValues : List AttrValue := r.Instructions.map AttrValue.string
  let instList : TfList AttrValue := .value instValues
  match r.Verification with
  | some v =>
    match v.ToObjectValue with
    | .error err => .error err
    | .ok verObj =>
      .ok (.value [("name", .string r.Name), ("instructions", .list instList),
        ("verification", .object verObj)])
  | none =>
    .ok (.value [("name", .string r.Name), ("instructions", .list instList),
      ("verification", .object .null)])

/-- Loop of `KitModel.ToObjectValue` filling `reqValues`; it stops at the first error. -/
def requirementValues : List RequirementModel → Except String (List AttrValue)
  | [] => .ok []
  | req :: rest =>
    match req.ToObjectValue with
    | .error err => .error err
    | .ok reqObj =>
      match requirementValues rest with
      | .error err => .error err
      | .ok vals => .ok (.object reqObj :: vals)

/-- Method `KitModel.ToObjectValue`: `types.ListValue` and `types.ObjectValue` cannot fail
on values of the declared types, so only an error of a requirement is passed on. -/
def KitModel.ToObjectValue (k : KitModel) : Except String (TfObject AttrValue) :=
  match requirementValues k.Requirements with
  | .error err => .error err
  | .ok reqValues =>
    let reqList : TfList AttrValue := .value reqValues
    .ok (.value [("id", .string k.ID), ("type", .string k.Type_), ("name", .string k.Name),
      ("description", .string k.Description), ("version", .string k.Version),
      ("requirements", .list reqList)])

/-! ## Operating system, log and provider data -/

/-- Outcomes of the library calls made by `writeOutputFile`: `none` is a nil error, `some e`
an error with message `e`. -/
structure Os where
  MkdirAll : String → Option String
  Join : String → String → String
  MarshalIndent : GoMap → Option String
  WriteFile : String → Option String

/-- Elements of a path between its slashes. -/
def splitSlash : List Char → List (List Char)
  | [] => [[]]
  | c :: cs =>
    if c = '/' then [] :: splitSlash cs
    else
      match splitSlash cs with
      | [] => [[c]]
      | x :: xs => (c :: x) :: xs

/-- One path element in Go's `filepath.Clean` (Unix); `stack` holds the elements kept so
far, the last one first.  Empty elements and `.` are dropped; `..` removes the element before
it, is dropped at the root of a rooted path, and is kept where nothing is left to remove. -/
def cleanStep (rooted : Bool) (stack : List (List Char)) (elem : List Char) : List (List Char) :=
  if elem = [] then stack
  else if elem = ['.'] then stack
  else if elem = ['.', '.'] then
    match stack with
    | [] => if rooted then stack else [elem]
    | top :: below =>
      if top = ['.', '.'] then (if rooted then stack else elem :: stack) else below
  else elem :: stack

/-- Go's `filepath.Clean` on Unix, from the documentation of `path/filepath`: the shortest
equivalent path, `.` for the empty one. -/
def filepathClean (path : String) : String :=
  if path = "" then "."
  else
    let rooted := path.data.head? == some '/'
    let stack := (splitSlash path.data).foldl (cleanStep rooted) []
    let body := String.mk (List.intercalate ['/'] stack.reverse)
    if rooted then "/" ++ body
    else if stack = [] then "."
    else body

/-- Go's `filepath.Join` on Unix for two elements: leading empty elements are ignored, the
rest is joined with a slash and cleaned. -/
def filepathJoin (dir name : String) : String :=
  if dir ≠ "" then filepathClean (dir ++ "/" ++ name)
  else if name ≠ "" then filepathClean name
  else ""

/-- Levels of `tflog`. -/
inductive LogLevel where
  | trace
  | debug
  | info
  | warn
  | error
deriving DecidableEq, Repr

/-- Calls that leave the process: a directory creation, a file write (attempted with the
given document as content) and a log line. -/
inductive Effect where
  | mkdirAll (path : String)
  | writeFile (name : String) (content : GoMap)
  | log (level : LogLevel) (msg : String)

/-- Struct `Registry` of `internal/registry/registry.go`, over stored values of type `V`. -/
structure Registry (V : Type) where
  Components : List (String × V)
  Stacks : List (String × V)
  Projects : List (String × V)

/-- Function `registry.New`. -/
def Registry.New {V : Type} : Registry V :=
  { Components := [], Stacks := [], Projects := [] }

/-- Struct `ProviderData` of `internal/provider/provider.go`. -/
structure ProviderData (V : Type) where
  OutputFormat : String
  OutputPath : String
  Registry : Registry V

/-- Method `ProviderData.GetOutputPath`. -/
def ProviderData.GetOutputPath {V : Type} (p : ProviderData V) : String :=
  p.OutputPath

/-- Method `ProviderData.GetOutputFormat`. -/
def ProviderData.GetOutputFormat {V : Type} (p : ProviderData V) : String :=
  p.OutputFormat

/-! ## Final project resource (`internal/resources/project_final.go`) -/

/-- Struct `ProjectModelFinal`. -/
structure ProjectModelFinal where
  ID : TfString
  Name : TfString
  Description : TfString
  Version : TfString
  Requirements : List RequirementModel
  Kits : TfMap AttrValue

/-- Inner loop of lines 200-205: the instructions that are neither null nor unknown. -/
def knownInstructions (insts : List TfString) : List String :=
  insts.filterMap fun inst =>
    if !inst.IsNull && !inst.IsUnknown then some inst.ValueString else none

/-- Body of the loop of lines 189-217 up to the append: the `reqData` of one project
requirement. -/
def projectRequirementData (req : RequirementModel) : GoMap :=
  let reqData : GoMap := [("name", .string req.Name.ValueString)]
  let reqData :=
    if !req.Priority.IsNull && !req.Priority.IsUnknown then
      mapSet reqData "priority" (.int64 req.Priority.ValueInt64)
    else reqData
  let instructions := knownInstructions req.Instructions
  let reqData := mapSet reqData "instructions" (.strings instructions)
  let reqData :=
    match req.Verification with
    | some v =>
      mapSet reqData "verification"
        (.stringMap [("command", v.Command.ValueString), ("expect", v.Expect.ValueString)])
    | none => reqData
  reqData

/-- Line 216: `outputData["requirements"] = append(outputData["requirements"].(...), reqData)`;
the type assertion is unchecked and panics on any other dynamic type. -/
def appendRequirement (outputData : GoMap) (reqData : GoMap) : Except String GoMap :=
  match mapGet outputData "requirements" with
  | some (.maps xs) => .ok (mapSet outputData "requirements" (.maps (xs ++ [reqData])))
  | _ => .error "panic: interface conversion"

/-- Loop of lines 189-217, on the `reqData` of the requirements in order. -/
def addRequirements : List GoMap → GoMap → Except String GoMap
  | [], outputData => .ok outputData
  | reqData :: rest, outputData =>
    match appendRequirement outputData reqData with
    | .error e => .error e
    | .ok outputData => addRequirements rest outputData

/-- Pattern `if s, ok := attrs[key].(types.String); ok && !s.IsNull() { m[key] = s.ValueString() }`
of lines 231-245 and 257-259. -/
def setStringField (m : GoMap) (attrs : List (String × AttrValue)) (key : String) : GoMap :=
  match assertString (attrIndex attrs key) with
  | some s => if !s.IsNull then mapSet m key (.string s.ValueString) else m
  | none => m

/-- Same pattern on a `map[string]string` (lines 282-287). -/
def setStringEntry (m : List (String × String)) (attrs : List (String × AttrValue))
    (key : String) : List (String × String) :=
  match assertString (attrIndex attrs key) with
  | some s => if !s.IsNull then mapSet m key s.ValueString else m
  | none => m

/-- Loop of lines 269-273 (and of lines 272-276 of `project_auto.go`): the values of the
elements that are strings and not null. -/
def stringElements (elems : List AttrValue) : List String :=
  elems.filterMap fun inst =>
    match assertString (some inst) with
    | some instStr => if !instStr.IsNull then some instStr.ValueString else none
    | none => none

/-- Lines 261-264: the priority of a kit requirement, when the attribute is a non-null
integer. -/
def setPriorityField (reqData : GoMap) (reqAttrs : List (String × AttrValue)) : GoMap :=
  match assertInt64 (attrIndex reqAttrs "priority") with
  | some priority =>
    if !priority.IsNull then mapSet reqData "priority" (.int64 priority.ValueInt64)
    else reqData
  | none => reqData

/-- Lines 266-275: the instructions of a kit requirement, when the attribute is a non-null
list. -/
def setInstructionsField (reqData : GoMap) (reqAttrs : List (String × AttrValue)) : GoMap :=
  match assertList (attrIndex reqAttrs "instructions") with
  | some instList =>
    if !instList.IsNull then
      mapSet reqData "instructions" (.strings (stringElements instList.Elements))
    else reqData
  | none => reqData

/-- Lines 279-287: the `verification` map built from the attributes of a verification
object. -/
def verificationEntries (verAttrs : List (String × AttrValue)) : List (String × String) :=
  let verification : List (String × String) := []
  let verification := setStringEntry verification verAttrs "command"
  let verification := setStringEntry verification verAttrs "expect"
  verification

/-- Lines 277-292: the verification of a kit requirement, when the attribute is a non-null
object and the map built from it is not empty. -/
def setVerificationField (reqData : GoMap) (reqAttrs : List (String × AttrValue)) : GoMap :=
  match assertObject (attrIndex reqAttrs "verification") with
  | some verObj =>
    if !verObj.IsNull then
      let verification := verificationEntries verObj.Attributes
      if verification.length > 0 then mapSet reqData "verification" (.stringMap verification)
      else reqData
    else reqData
  | none => reqData

/-- Lines 253-292: the `reqData` extracted from the attributes of one kit requirement. -/
def kitRequirementData (reqAttrs : List (String × AttrValue)) : GoMap :=
  let reqData : GoMap := []
  let reqData := setStringField reqData reqAttrs "name"
  let reqData := setPriorityField reqData reqAttrs
  let reqData := setInstructionsField reqData reqAttrs
  let reqData := setVerificationField reqData reqAttrs
  reqData

/-- Loop of lines 251-298: the requirements extracted from the elements of a kit's
`requirements` list; elements that are not objects, null objects and empty extractions are
skipped. -/
def kitRequirements (elems : List AttrValue) : List GoMap :=
  elems.filterMap fun reqElem =>
    match assertObject (some reqElem) with
    | some reqObj =>
      if !reqObj.IsNull then
        let reqData := kitRequirementData reqObj.Attributes
        if reqData.length > 0 then some reqData else none
      else none
    | none => none

/-- Lines 247-303: the requirements of a kit, when the attribute is a non-null list and
at least one requirement is extracted. -/
def setRequirementsField (kitData : GoMap) (kitAttrs : List (String × AttrValue)) : GoMap :=
  match assertList (attrIndex kitAttrs "requirements") with
  | some reqList =>
    if !reqList.IsNull then
      let requirements := kitRequirements reqList.Elements
      if requirements.length > 0 then mapSet kitData "requirements" (.maps requirements)
      else kitData
    else kitData
  | none => kitData

/-- Lines 227-303: the `kitData` extracted from the attributes of one kit. -/
def kitData (kitAttrs : List (String × AttrValue)) : GoMap :=
  let kitData : GoMap := []
  let kitData := setStringField kitData kitAttrs "id"
  let kitData := setStringField kitData kitAttrs "type"
  let kitData := setStringField kitData kitAttrs "name"
  let kitData := setStringField kitData kitAttrs "description"
  let kitData := setStringField kitData kitAttrs "version"
  let kitData := setRequirementsField kitData kitAttrs
  kitData

/-- Body of the loop of lines 225-311 on one entry of the kits map: the state is the pair
of `kitsOutput` and `dependencies`. -/
def kitsStep (acc : GoMap × List String) (entry : String × AttrValue) : GoMap × List String :=
  match assertObject (some entry.2) with
  | some kitObj =>
    if !kitObj.IsNull then
      let kd := kitData kitObj.Attributes
      if kd.length > 0 then (mapSet acc.1 entry.1 (.map kd), acc.2 ++ ["@kit." ++ entry.1])
      else acc
    else acc
  | none => acc

/-- Loop of lines 225-311 over the kits map in the order the runtime iterates it. -/
def kitsLoop (kitsMap : List (String × AttrValue)) : GoMap × List String :=
  kitsMap.foldl kitsStep ([], [])

/-- Lines 219-318: the kits and the dependencies are filled in when the map is neither null
nor unknown. -/
def addKits (kits : TfMap AttrValue) (outputData : GoMap) : GoMap :=
  if !kits.IsNull && !kits.IsUnknown then
    let r := kitsLoop kits.Elements
    let outputData := mapSet outputData "kits" (.map r.1)
    match mapGet outputData "project" with
    | some (.map projectData) =>
      mapSet outputData "project" (.map (mapSet projectData "dependencies" (.strings r.2)))
    | _ => outputData
  else outputData

/-- Lines 176-318 of `ProjectResourceFinal.writeOutputFile`: the document that is marshalled,
or the panic of an unchecked type assertion. -/
def buildOutputData (data : ProjectModelFinal) : Except String GoMap :=
  let outputData : GoMap :=
    [("project", .map [("name", .string data.Name.ValueString),
        ("description", .string data.Description.ValueString),
        ("version", .string data.Version.ValueString),
        ("dependencies", .strings [])]),
      ("requirements", .maps []),
      ("kits", .map [])]
  match addRequirements (data.Requirements.map projectRequirementData) outputData with
  | .error e => .error e
  | .ok outputData => .ok (addKits data.Kits outputData)

/-- Method `ProjectResourceFinal.writeOutputFile`: the effects in order, or the panic of an
unchecked type assertion.  The argument `providerData` is `none` when the resource's
`ProviderData` does not have the two getters (it is nil, for instance). -/
def ProjectResourceFinal.writeOutputFile {V : Type} (providerData : Option (ProviderData V))
    (os : Os) (data : ProjectModelFinal) : Except String (List Effect) :=
  let outputPath := match providerData with
    | some provData => provData.GetOutputPath
    | none => ".tofukit"
  let outputFormat := match providerData with
    | some provData => provData.GetOutputFormat
    | none => "json"
  if outputPath = "" then .ok []
  else
    match os.MkdirAll outputPath with
    | some err =>
      .ok [.mkdirAll outputPath, .log .error ("Failed to create output directory: " ++ err)]
    | none =>
      match buildOutputData data with
      | .error e => .error e
      | .ok outputData =>
        let filename :=
          os.Join outputPath ("project-" ++ data.Name.ValueString ++ "." ++ outputFormat)
        match os.MarshalIndent outputData with
        | some err => .ok [.mkdirAll outputPath, .log .error ("Failed to marshal JSON: " ++ err)]
        | none =>
          match os.WriteFile filename with
          | some err =>
            .ok [.mkdirAll outputPath, .writeFile filename outputData,
              .log .error ("Failed to write file: " ++ err)]
          | none =>
            match mapGet outputData "kits" with
            | some (.map kits) =>
              .ok [.mkdirAll outputPath, .writeFile filename outputData,
                .log .info ("Wrote project output to " ++ filename ++ " with " ++
                  toString kits.length ++ " kits")]
            | _ => .error "panic: interface conversion"

/-! ## Registry access and component resources
(`internal/resources/base_component.go`, `internal/resources/components.go`) -/

/-- Struct `BaseComponent`; `ProviderData` is `none` when it is nil or lacks the getters.
The registry the methods below are documented to use is `ProviderData.Registry`. -/
structure BaseComponent (V : Type) where
  Kind : String
  ProviderData : Option (ProviderData V)

/-- Method `BaseComponent.SaveToRegistry`: it logs and returns; the receiver, and with it
the registry, is returned as it was. -/
def BaseComponent.SaveToRegistry {V : Type} (r : BaseComponent V) (id : String) (_data : V) :
    BaseComponent V × List Effect :=
  (r, [.log .debug ("Saving " ++ r.Kind ++ " component to registry: " ++ id)])

/-- Method `BaseComponent.GetFromRegistry`: it logs and returns `nil, false`. -/
def BaseComponent.GetFromRegistry {V : Type} (r : BaseComponent V) (id : String) :
    (Option V × Bool) × List Effect :=
  ((none, false), [.log .debug ("Getting " ++ r.Kind ++ " component from registry: " ++ id)])

/-- Method `BaseComponent.RemoveFromRegistry`: it logs and returns. -/
def BaseComponent.RemoveFromRegistry {V : Type} (r : BaseComponent V) (id : String) :
    BaseComponent V × List Effect :=
  (r, [.log .debug ("Removing " ++ r.Kind ++ " component from registry: " ++ id)])

/-- Severity of a framework diagnostic. -/
inductive Severity where
  | error
  | warning
deriving DecidableEq, Repr

/-- Framework diagnostic. -/
structure Diagnostic where
  severity : Severity
  summary : String
deriving DecidableEq, Repr

/-- Method `HasError` of `diag.Diagnostics`. -/
def hasError (ds : List Diagnostic) : Bool :=
  ds.any fun d => d.severity == Severity.error

/-- Result of `req.Plan.Get(ctx, &data)`: the diagnostics of decoding the plan and the model
decoded. -/
structure PlanRequest (M : Type) where
  Diagnostics : List Diagnostic
  Data : M

/-- What a `Create` leaves behind: the diagnostics of the response, the state set (if any)
and the effects in order.  `resp.State.Set` of a model of the schema's type adds no
diagnostic. -/
structure CreateResponse (M : Type) where
  Diagnostics : List Diagnostic
  State : Option M
  Effects : List Effect

/-- Struct `ComponentResourceModel`. -/
structure ComponentResourceModel where
  ID : TfString
  Name : TfString
  Description : TfString
  Version : TfString
  DependsOnRefs : List TfString
  Requirements : List RequirementModel
deriving DecidableEq, Repr

/-- Method `ComponentResource.Create`. -/
def ComponentResource.Create (r : BaseComponent ComponentResourceModel)
    (req : PlanRequest ComponentResourceModel) : CreateResponse ComponentResourceModel :=
  if hasError req.Diagnostics then
    { Diagnostics := req.Diagnostics, State := none, Effects := [] }
  else
    let data := req.Data
    let data := { data with ID := .value (r.Kind ++ "." ++ data.Name.ValueString) }
    let saved := r.SaveToRegistry data.ID.ValueString data
    { Diagnostics := req.Diagnostics
      State := some data
      Effects :=
        [.log .trace ("created " ++ r.Kind ++ " resource: " ++ data.ID.ValueString)] ++ saved.2 }

/-! ## Auto project resource (`internal/resources/project_auto.go`) -/

/-- Struct `ProjectModelAuto`. -/
structure ProjectModelAuto where
  ID : TfString
  Name : TfString
  Description : TfString
  Version : TfString
  Requirements : List RequirementModel
  DependsOnRefs : TfList AttrValue
  Kits : TfMap AttrValue

/-- Body of the loop of lines 244-267 of `project_auto.go` up to the append. -/
def autoRequirementData (req : RequirementModel) : GoMap :=
  let reqData : GoMap := [("name", .string req.Name.ValueString)]
  let instructions := knownInstructions req.Instructions
  let reqData := mapSet reqData "instructions" (.strings instructions)
  let reqData :=
    match req.Verification with
    | some v =>
      mapSet reqData "verification"
        (.stringMap [("command", v.Command.ValueString), ("expect", v.Expect.ValueString)])
    | none => reqData
  reqData

/-- Lines 359-372 of `project_auto.go`: the verification of a kit requirement, when the
attribute is a non-null object; the map is stored even when it is empty. -/
def setAutoVerificationField (reqData : GoMap) (reqAttrs : List (String × AttrValue)) : GoMap :=
  match assertObject (attrIndex reqAttrs "verification") with
  | some verObj =>
    if !verObj.IsNull then
      mapSet reqData "verification" (.stringMap (verificationEntries verObj.Attributes))
    else reqData
  | none => reqData

/-- Lines 341-372 of `project_auto.go`: the `reqData` of one kit requirement; its
instructions are read as in `project_final.go` (lines 348-357). -/
def autoKitRequirementData (reqAttrs : List (String × AttrValue)) : GoMap :=
  let reqData : GoMap := []
  let reqData := setStringField reqData reqAttrs "name"
  let reqData := setInstructionsField reqData reqAttrs
  let reqData := setAutoVerificationField reqData reqAttrs
  reqData

/-- Loop of lines 339-376 of `project_auto.go`: every element that is an object yields a
requirement, null objects and empty extractions included. -/
def autoKitRequirements (elems : List AttrValue) : List GoMap :=
  elems.filterMap fun reqElem =>
    match assertObject (some reqElem) with
    | some reqObj => some (autoKitRequirementData reqObj.Attributes)
    | none => none

/-- Lines 335-379 of `project_auto.go`: the requirements of a kit, when the attribute is a
non-null list; the list is stored even when it is empty. -/
def setAutoRequirementsField (kitData : GoMap) (attrs : List (String × AttrValue)) : GoMap :=
  match assertList (attrIndex attrs "requirements") with
  | some reqList =>
    if !reqList.IsNull then mapSet kitData "requirements" (.maps (autoKitRequirements reqList.Elements))
    else kitData
  | none => kitData

/-- Method `ProjectResourceAuto.extractKitData`. -/
def ProjectResourceAuto.extractKitData (attrs : List (String × AttrValue)) : GoMap :=
  let kitData : GoMap := []
  let kitData := setStringField kitData attrs "id"
  let kitData := setStringField kitData attrs "type"
  let kitData := setStringField kitData attrs "name"
  let kitData := setStringField kitData attrs "description"
  let kitData := setStringField kitData attrs "version"
  let kitData := setAutoRequirementsField kitData attrs
  kitData

/-- Lines 269-278 of `project_auto.go`. -/
def addDependsOn (refs : TfList AttrValue) (outputData : GoMap) : GoMap :=
  if !refs.IsNull && !refs.IsUnknown then
    mapSet outputData "depends_on" (.strings (stringElements refs.Elements))
  else outputData

/-- Lines 280-295 of `project_auto.go`; `extractKitData` never returns a nil map. -/
def addAutoKits (kits : TfMap AttrValue) (outputData : GoMap) : GoMap :=
  if !kits.IsNull && !kits.IsUnknown then
    let step := fun (kitsOutput : GoMap) (entry : String × AttrValue) =>
      match assertObject (some entry.2) with
      | some kitObj =>
        mapSet kitsOutput entry.1 (.map (ProjectResourceAuto.extractKitData kitObj.Attributes))
      | none => kitsOutput
    mapSet outputData "kits" (.map (kits.Elements.foldl step []))
  else outputData

/-- Lines 231-295 of `ProjectResourceAuto.writeOutputFile`: the document marshalled. -/
def buildAutoOutputData (data : ProjectModelAuto) : Except String GoMap :=
  let outputData : GoMap :=
    [("project", .map [("name", .string data.Name.ValueString),
        ("description", .string data.Description.ValueString),
        ("version", .string data.Version.ValueString)]),
      ("requirements", .maps []),
      ("depends_on", .strings []),
      ("kits", .map [])]
  match addRequirements (data.Requirements.map autoRequirementData) outputData with
  | .error e => .error e
  | .ok outputData => .ok (addAutoKits data.Kits (addDependsOn data.DependsOnRefs outputData))

/-- Method `ProjectResourceAuto.writeOutputFile`. -/
def ProjectResourceAuto.writeOutputFile {V : Type} (providerData : Option (ProviderData V))
    (os : Os) (data : ProjectModelAuto) : Except String (List Effect) :=
  let outputPath := match providerData with
    | some provData => provData.GetOutputPath
    | none => ".tofukit"
  let outputFormat := match providerData with
    | some provData => provData.GetOutputFormat
    | none => "json"
  if outputPath = "" then .ok []
  else
    match os.MkdirAll outputPath with
    | some err =>
      .ok [.mkdirAll outputPath, .log .error ("Failed to create output directory: " ++ err)]
    | none =>
      match buildAutoOutputData data with
      | .error e => .error e
      | .ok outputData =>
        let filename :=
          os.Join outputPath ("project-" ++ data.Name.ValueString ++ "." ++ outputFormat)
        match os.MarshalIndent outputData with
        | some err => .ok [.mkdirAll outputPath, .log .error ("Failed to marshal JSON: " ++ err)]
        | none =>
          match os.WriteFile filename with
          | some err =>
            .ok [.mkdirAll outputPath, .writeFile filename outputData,
              .log .error ("Failed to write file: " ++ err)]
          | none =>
            .ok [.mkdirAll outputPath, .writeFile filename outputData,
              .log .info ("Wrote project output to " ++ filename)]

/-- Method `ProjectResourceAuto.Create`: the computed attributes are set to the empty list
and the empty map before the file is written and the state set. -/
def ProjectResourceAuto.Create {V : Type} (r : BaseComponent V) (os : Os)
    (req : PlanRequest ProjectModelAuto) : Except String (CreateResponse ProjectModelAuto) :=
  if hasError req.Diagnostics then
    .ok { Diagnostics := req.Diagnostics, State := none, Effects := [] }
  else
    let data := req.Data
    let data := { data with ID := .value ("project." ++ data.Name.ValueString) }
    let emptyList : TfList AttrValue := .value []
    let data := { data with DependsOnRefs := emptyList }
    let emptyMap : TfMap AttrValue := .value []
    let data := { data with Kits := emptyMap }
    match ProjectResourceAuto.writeOutputFile r.ProviderData os data with
    | .error e => .error e
    | .ok effects =>
      .ok { Diagnostics := req.Diagnostics
            State := some data
            Effects :=
              effects ++ [.log .trace ("created project resource: " ++ data.ID.ValueString)] }

/-! ## Final project resource: `Create`, `Update`, `Delete`
(`internal/resources/project_final.go`, lines 109-150) -/

/-- Method `ProjectResourceFinal.Create`: the identifier is set from the name, the file is
written, and the state is set whatever `writeOutputFile` logged. -/
def ProjectResourceFinal.Create {V : Type} (r : BaseComponent V) (os : Os)
    (req : PlanRequest ProjectModelFinal) : Except String (CreateResponse ProjectModelFinal) :=
  if hasError req.Diagnostics then
    .ok { Diagnostics := req.Diagnostics, State := none, Effects := [] }
  else
    let data := req.Data
    let data := { data with ID := .value ("project." ++ data.Name.ValueString) }
    match ProjectResourceFinal.writeOutputFile r.ProviderData os data with
    | .error e => .error e
    | .ok effects =>
      .ok { Diagnostics := req.Diagnostics
            State := some data
            Effects :=
              effects ++ [.log .trace ("created project resource: " ++ data.ID.ValueString)] }

/-- Method `ProjectResourceFinal.Update`: the file is written from the plan and the state
is set to the plan. -/
def ProjectResourceFinal.Update {V : Type} (r : BaseComponent V) (os : Os)
    (req : PlanRequest ProjectModelFinal) : Except String (CreateResponse ProjectModelFinal) :=
  if hasError req.Diagnostics then
    .ok { Diagnostics := req.Diagnostics, State := none, Effects := [] }
  else
    let data := req.Data
    match ProjectResourceFinal.writeOutputFile r.ProviderData os data with
    | .error e => .error e
    | .ok effects => .ok { Diagnostics := req.Diagnostics, State := some data, Effects := effects }

/-- What a `Delete` leaves behind: the diagnostics of the response and the effects. -/
structure DeleteResponse where
  Diagnostics : List Diagnostic
  Effects : List Effect

/-- Method `ProjectResourceFinal.Delete`: its body is the comment "Nothing to do on
delete". -/
def ProjectResourceFinal.Delete {V : Type} (_r : BaseComponent V) (_os : Os)
    (_state : ProjectModelFinal) : DeleteResponse :=
  { Diagnostics := [], Effects := [] }

/-! ## Provider configuration (`internal/provider/provider.go`) -/

/-- Struct `TofukitProviderModel`. -/
structure TofukitProviderModel where
  OutputFormat : TfString
  OutputPath : TfString
deriving DecidableEq, Repr

/-- Result of `req.Config.Get(ctx, &data)`: the diagnostics of decoding the configuration
and the model decoded. -/
structure ConfigureRequest where
  Diagnostics : List Diagnostic
  Data : TofukitProviderModel

/-- What `Configure` leaves in the response: the diagnostics and the provider data handed
to resources and data sources (`none` when it is not set). -/
structure ConfigureResponse (V : Type) where
  Diagnostics : List Diagnostic
  DataSourceData : Option (ProviderData V)
  ResourceData : Option (ProviderData V)

/-- Method `TofukitProvider.Configure`. -/
def TofukitProvider.Configure {V : Type} (req : ConfigureRequest) : ConfigureResponse V :=
  if hasError req.Diagnostics then
    { Diagnostics := req.Diagnostics, DataSourceData := none, ResourceData := none }
  else
    let data := req.Data
    let outputFormat := "json"
    let outputPath := ".tofukit"
    let outputFormat := if !data.OutputFormat.IsNull then data.OutputFormat.ValueString
      else outputFormat
    let outputPath := if !data.OutputPath.IsNull then data.OutputPath.ValueString
      else outputPath
    let providerData : ProviderData V :=
      { OutputFormat := outputFormat, OutputPath := outputPath, Registry := Registry.New }
    { Diagnostics := req.Diagnostics
      DataSourceData := some providerData
      ResourceData := some providerData }

/-! ## Auto project resource: `Update` (`internal/resources/project_auto.go`, lines 190-201) -/

/-- Method `ProjectResourceAuto.Update`. -/
def ProjectResourceAuto.Update {V : Type} (r : BaseComponent V) (os : Os)
    (req : PlanRequest ProjectModelAuto) : Except String (CreateResponse ProjectModelAuto) :=
  if hasError req.Diagnostics then
    .ok { Diagnostics := req.Diagnostics, State := none, Effects := [] }
  else
    let data := req.Data
    match ProjectResourceAuto.writeOutputFile r.ProviderData os data with
    | .error e => .error e
    | .ok effects => .ok { Diagnostics := req.Diagnostics, State := some data, Effects := effects }

/-! ## Simplified project resource (`internal/resources/project_simplified.go`) -/

/-- Struct `ProjectModelSimplified`. -/
structure ProjectModelSimplified where
  ID : TfString
  Name : TfString
  Description : TfString
  Version : TfString
  DependsOnRefs : List TfString
  Requirements : List RequirementModel
  Kits : TfMap AttrValue

/-- Method `ProjectResourceSimplified.getStringValue`. -/
def ProjectResourceSimplified.getStringValue (v : Option AttrValue) : String :=
  match assertString v with
  | some s => if !s.IsNull && !s.IsUnknown then s.ValueString else ""
  | none => ""

/-- Lines 195-199 of `project_simplified.go`: one reference is appended to
`outputData["depends_on"]`; the type assertion is unchecked. -/
def appendDependsOn (outputData : GoMap) (ref : TfString) : Except String GoMap :=
  if !ref.IsNull && !ref.IsUnknown then
    match mapGet outputData "depends_on" with
    | some (.strings xs) => .ok (mapSet outputData "depends_on" (.strings (xs ++ [ref.ValueString])))
    | _ => .error "panic: interface conversion"
  else .ok outputData

/-- Loop of lines 195-199 of `project_simplified.go`. -/
def addSimplifiedDependsOn : List TfString → GoMap → Except String GoMap
  | [], outputData => .ok outputData
  | ref :: rest, outputData =>
    match appendDependsOn outputData ref with
    | .error e => .error e
    | .ok outputData => addSimplifiedDependsOn rest outputData

/-- Lines 221-246 of `project_simplified.go`: the `reqData` of one kit requirement. -/
def simplifiedKitRequirementData (reqAttrs : List (String × AttrValue)) : GoMap :=
  let reqData : GoMap :=
    [("name", .string (ProjectResourceSimplified.getStringValue (attrIndex reqAttrs "name")))]
  let reqData :=
    match assertList (attrIndex reqAttrs "instructions") with
    | some instList =>
      if !instList.IsNull then
        mapSet reqData "instructions" (.strings (instList.Elements.filterMap fun inst =>
          match assertString (some inst) with
          | some instStr => some instStr.ValueString
          | none => none))
      else reqData
    | none => reqData
  let reqData :=
    match assertObject (attrIndex reqAttrs "verification") with
    | some verObj =>
      if !verObj.IsNull then
        let verAttrs := verObj.Attributes
        mapSet reqData "verification"
          (.stringMap
            [("command", ProjectResourceSimplified.getStringValue (attrIndex verAttrs "command")),
              ("expect", ProjectResourceSimplified.getStringValue (attrIndex verAttrs "expect"))])
      else reqData
    | none => reqData
  reqData

/-- Lines 207-252 of `project_simplified.go`: the `kitData` of one kit object. -/
def simplifiedKitData (kitAttrs : List (String × AttrValue)) : GoMap :=
  let kitData : GoMap :=
    [("id", .string (ProjectResourceSimplified.getStringValue (attrIndex kitAttrs "id"))),
      ("type", .string (ProjectResourceSimplified.getStringValue (attrIndex kitAttrs "type"))),
      ("name", .string (ProjectResourceSimplified.getStringValue (attrIndex kitAttrs "name"))),
      ("description",
        .string (ProjectResourceSimplified.getStringValue (attrIndex kitAttrs "description"))),
      ("version",
        .string (ProjectResourceSimplified.getStringValue (attrIndex kitAttrs "version")))]
  match assertList (attrIndex kitAttrs "requirements") with
  | some reqList =>
    if !reqList.IsNull then
      mapSet kitData "requirements" (.maps (reqList.Elements.filterMap fun reqElem =>
        match assertObject (some reqElem) with
        | some reqObj => some (simplifiedKitRequirementData reqObj.Attributes)
        | none => none))
    else kitData
  | none => kitData

/-- Lines 201-256 of `project_simplified.go`. -/
def addSimplifiedKits (kits : TfMap AttrValue) (outputData : GoMap) : GoMap :=
  if !kits.IsNull && !kits.IsUnknown then
    let step := fun (kitsOutput : GoMap) (entry : String × AttrValue) =>
      match assertObject (some entry.2) with
      | some kitObj => mapSet kitsOutput entry.1 (.map (simplifiedKitData kitObj.Attributes))
      | none => kitsOutput
    mapSet outputData "kits" (.map (kits.Elements.foldl step []))
  else outputData

/-- Body of the loop of lines 260-281 of `project_simplified.go`: every instruction is
kept. -/
def simplifiedRequirementData (req : RequirementModel) : GoMap :=
  let reqData : GoMap := [("name", .string req.Name.ValueString)]
  let instructions := req.Instructions.map fun inst => inst.ValueString
  let reqData := mapSet reqData "instructions" (.strings instructions)
  let reqData :=
    match req.Verification with
    | some v =>
      mapSet reqData "verification"
        (.stringMap [("command", v.Command.ValueString), ("expect", v.Expect.ValueString)])
    | none => reqData
  reqData

/-- Lines 183-282 of `ProjectResourceSimplified.writeOutputFile`: the document marshalled. -/
def buildSimplifiedOutputData (data : ProjectModelSimplified) : Except String GoMap :=
  let outputData : GoMap :=
    [("project", .map [("name", .string data.Name.ValueString),
        ("description", .string data.Description.ValueString),
        ("version", .string data.Version.ValueString)]),
      ("depends_on", .strings []),
      ("kits", .map [])]
  match addSimplifiedDependsOn data.DependsOnRefs outputData with
  | .error e => .error e
  | .ok outputData =>
    let outputData := addSimplifiedKits data.Kits outputData
    .ok (mapSet outputData "requirements"
      (.maps (data.Requirements.map simplifiedRequirementData)))

/-- Method `ProjectResourceSimplified.writeOutputFile`: a format other than `json` is
refused with a warning, after the directory has been created. -/
def ProjectResourceSimplified.writeOutputFile {V : Type}
    (providerData : Option (ProviderData V)) (os : Os) (data : ProjectModelSimplified) :
    Except String (List Effect) :=
  let outputPath := match providerData with
    | some provData => provData.GetOutputPath
    | none => ".tofukit"
  let outputFormat := match providerData with
    | some provData => provData.GetOutputFormat
    | none => "json"
  if outputPath = "" then .ok []
  else
    match os.MkdirAll outputPath with
    | some err =>
      .ok [.mkdirAll outputPath, .log .error ("Failed to create output directory: " ++ err)]
    | none =>
      match buildSimplifiedOutputData data with
      | .error e => .error e
      | .ok outputData =>
        let filename :=
          os.Join outputPath ("project-" ++ data.Name.ValueString ++ "." ++ outputFormat)
        if outputFormat = "json" then
          match os.MarshalIndent outputData with
          | some err => .ok [.mkdirAll outputPath, .log .error ("Failed to marshal JSON: " ++ err)]
          | none =>
            match os.WriteFile filename with
            | some err =>
              .ok [.mkdirAll outputPath, .writeFile filename outputData,
                .log .error ("Failed to write file: " ++ err)]
            | none =>
              .ok [.mkdirAll outputPath, .writeFile filename outputData,
                .log .info ("Wrote project output to " ++ filename)]
        else
          .ok [.mkdirAll outputPath, .log .warn ("Unsupported output format: " ++ outputFormat)]

/-- Method `ProjectResourceSimplified.Create`. -/
def ProjectResourceSimplified.Create {V : Type} (r : BaseComponent V) (os : Os)
    (req : PlanRequest ProjectModelSimplified) :
    Except String (CreateResponse ProjectModelSimplified) :=
  if hasError req.Diagnostics then
    .ok { Diagnostics := req.Diagnostics, State := none, Effects := [] }
  else
    let data := req.Data
    let data := { data with ID := .value ("project." ++ data.Name.ValueString) }
    match ProjectResourceSimplified.writeOutputFile r.ProviderData os data with
    | .error e => .error e
    | .ok effects =>
      .ok { Diagnostics := req.Diagnostics
            State := some data
            Effects :=
              effects ++ [.log .trace ("created project resource: " ++ data.ID.ValueString)] }

/-- Method `ProjectResourceSimplified.Update`. -/
def ProjectResourceSimplified.Update {V : Type} (r : BaseComponent V) (os : Os)
    (req : PlanRequest ProjectModelSimplified) :
    Except String (CreateResponse ProjectModelSimplified) :=
  if hasError req.Diagnostics then
    .ok { Diagnostics := req.Diagnostics, State := none, Effects := [] }
  else
    let data := req.Data
    match ProjectResourceSimplified.writeOutputFile r.ProviderData os data with
    | .error e => .error e
    | .ok effects => .ok { Diagnostics := req.Diagnostics, State := some data, Effects := effects }

/-! ## Key order of `json.MarshalIndent` -/

/-- Lexicographic comparison of two lists of code points. -/
def lexLe : List Nat → List Nat → Bool
  | [], _ => true
  | _ :: _, [] => false
  | x :: xs, y :: ys => if x < y then true else if y < x then false else lexLe xs ys

/-- Order of map keys in `encoding/json`: strings compared code point by code point, which
is the order of their UTF-8 bytes. -/
def keyLe (a b : String) : Bool :=
  lexLe (a.data.map Char.toNat) (b.data.map Char.toNat)

/-- Entries of a map sorted by key, the order in which `encoding/json` writes the entries
of a Go map. -/
def sortEntries {α : Type} (m : List (String × α)) : List (String × α) :=
  m.insertionSort fun a b => keyLe a.1 b.1 = true

mutual
/-- Value as `json.MarshalIndent` writes it: the entries of every map sorted by key. -/
def GoValue.marshalForm : GoValue → GoValue
  | .string s => .string s
  | .int64 n => .int64 n
  | .strings xs => .strings xs
  | .stringMap m => .stringMap (sortEntries m)
  | .maps xs => .maps (marshalFormMaps xs)
  | .map m => .map (sortEntries (marshalFormEntries m))
/-- Entries of a map with every value as `json.MarshalIndent` writes it, not yet sorted. -/
def marshalFormEntries : List (String × GoValue) → List (String × GoValue)
  | [] => []
  | (k, v) :: rest => (k, v.marshalForm) :: marshalFormEntries rest
/-- List of maps with every map as `json.MarshalIndent` writes it. -/
def marshalFormMaps : List (List (String × GoValue)) → List (List (String × GoValue))
  | [] => []
  | m :: rest => sortEntries (marshalFormEntries m) :: marshalFormMaps rest
end

/-- Document as `json.MarshalIndent` writes it. -/
def marshalForm (doc : GoMap) : GoMap :=
  sortEntries (marshalFormEntries doc)

/-! ## Kit resources of the other kinds
(`internal/resources/components.go`, `language.go`, `blueprint.go`) -/

/-- Function `NewFrameworkResource`. -/
def NewFrameworkResource : BaseComponent ComponentResourceModel :=
  { Kind := "framework", ProviderData := none }

/-- Function `NewToolResource`. -/
def NewToolResource : BaseComponent ComponentResourceModel :=
  { Kind := "tool", ProviderData := none }

/-- Function `NewMethodologyResource`. -/
def NewMethodologyResource : BaseComponent ComponentResourceModel :=
  { Kind := "methodology", ProviderData := none }

/-- Function `NewStyleResource`. -/
def NewStyleResource : BaseComponent ComponentResourceModel :=
  { Kind := "style", ProviderData := none }

/-- Function `NewInfrastructureResource`. -/
def NewInfrastructureResource : BaseComponent ComponentResourceModel :=
  { Kind := "infrastructure", ProviderData := none }

/-- Function `NewIntegrationResource`. -/
def NewIntegrationResource : BaseComponent ComponentResourceModel :=
  { Kind := "integration", ProviderData := none }

/-- Struct `LanguageResourceModel`. -/
structure LanguageResourceModel where
  ID : TfString
  Name : TfString
  Description : TfString
  Version : TfString
  DependsOnRefs : List TfString
  Requirements : List RequirementModel
deriving DecidableEq, Repr

/-- Function `NewLanguageResource`. -/
def NewLanguageResource : BaseComponent LanguageResourceModel :=
  { Kind := "language", ProviderData := none }

/-- Method `LanguageResource.Create`. -/
def LanguageResource.Create (r : BaseComponent LanguageResourceModel)
    (req : PlanRequest LanguageResourceModel) : CreateResponse LanguageResourceModel :=
  if hasError req.Diagnostics then
    { Diagnostics := req.Diagnostics, State := none, Effects := [] }
  else
    let data := req.Data
    let data := { data with ID := .value ("language." ++ data.Name.ValueString) }
    let saved := r.SaveToRegistry data.ID.ValueString data
    { Diagnostics := req.Diagnostics
      State := some data
      Effects := [.log .trace ("created language resource: " ++ data.ID.ValueString)] ++ saved.2 }

/-- Struct `BlueprintResourceModel`. -/
structure BlueprintResourceModel where
  ID : TfString
  Name : TfString
  Description : TfString
  Version : TfString
  DependsOnRefs : List TfString
deriving DecidableEq, Repr

/-- Function `NewBlueprintResource`: the kind of the embedded `BaseComponent` is left
empty. -/
def NewBlueprintResource : BaseComponent BlueprintResourceModel :=
  { Kind := "", ProviderData := none }

/-- Method `BlueprintResource.Create`. -/
def BlueprintResource.Create (r : BaseComponent BlueprintResourceModel)
    (req : PlanRequest BlueprintResourceModel) : CreateResponse BlueprintResourceModel :=
  if hasError req.Diagnostics then
    { Diagnostics := req.Diagnostics, State := none, Effects := [] }
  else
    let data := req.Data
    let data := { data with ID := .value ("blueprint." ++ data.Name.ValueString) }
    let saved := r.SaveToRegistry data.ID.ValueString data
    { Diagnostics := req.Diagnostics
      State := some data
      Effects := [.log .trace ("created blueprint resource: " ++ data.ID.ValueString)] ++ saved.2 }

/-! ## Vocabulary of the statements -/

/-- Entry `project.dependencies` of a written document, when it is a list of strings. -/
def documentDependencies (doc : GoMap) : Option (List String) :=
  match mapGet doc "project" with
  | some (.map projectData) =>
    match mapGet projectData "dependencies" with
    | some (.strings deps) => some deps
    | _ => none
  | _ => none

/-- Entry `requirements` of a written document, when it is a list of maps. -/
def documentRequirements (doc : GoMap) : Option (List GoMap) :=
  match mapGet doc "requirements" with
  | some (.maps reqs) => some reqs
  | _ => none

/-- Entry `kits` of a written document, when it is a map. -/
def documentKits (doc : GoMap) : Option GoMap :=
  match mapGet doc "kits" with
  | some (.map kits) => some kits
  | _ => none

/-- Test of lines 226 and 305 together: the element of the kits map is a non-null object
from which at least one field is extracted. -/
def kitEmitted (kitValue : AttrValue) : Bool :=
  match assertObject (some kitValue) with
  | some kitObj => !kitObj.IsNull && decide ((kitData kitObj.Attributes).length > 0)
  | none => false

/-- Operating system on which every call succeeds; paths are joined as `filepath.Join`
joins them. -/
def okOs : Os :=
  { MkdirAll := fun _ => none
    Join := filepathJoin
    MarshalIndent := fun _ => none
    WriteFile := fun _ => none }

/-- Kit object with all five string fields set and no requirement. -/
def sampleKit : AttrValue :=
  .object (.value [("id", .string (.value "tool.make")), ("type", .string (.value "tool")),
    ("name", .string (.value "make")), ("description", .string (.value "build tool")),
    ("version", .string (.value "4.4")), ("requirements", .list (.value []))])

/-- Kit object of the schema's type with every attribute null. -/
def emptyKit : AttrValue :=
  .object (.value [("id", .string .null), ("type", .string .null), ("name", .string .null),
    ("description", .string .null), ("version", .string .null), ("requirements", .list .null)])

/-- Project model with the given kits map and nothing else of interest. -/
def projectWithKits (kits : TfMap AttrValue) : ProjectModelFinal :=
  { ID := .unknown, Name := .value "app", Description := .null, Version := .value "1.0"
    Requirements := [], Kits := kits }

/-- Reference string to the kit with the given identifier, as documented for
`depends_on_refs` ("String references to dependencies (e.g., '@language.python')"). -/
def refTo (id : String) : TfString :=
  .value ("@" ++ id)

/-- Provider data of a session with the default configuration and a fresh registry. -/
def sessionData : ProviderData ComponentResourceModel :=
  { OutputFormat := "json", OutputPath := ".tofukit", Registry := Registry.New }

/-- Resource of the given kind configured with `sessionData`. -/
def sessionResource (kind : String) : BaseComponent ComponentResourceModel :=
  { Kind := kind, ProviderData := some sessionData }

/-- Plan of a component with the given name and references and no requirement. -/
def componentPlan (name : String) (refs : List TfString) : PlanRequest ComponentResourceModel :=
  { Diagnostics := []
    Data := { ID := .unknown, Name := .value name, Description := .null, Version := .value "1.0"
              DependsOnRefs := refs, Requirements := [] } }

/-- Plan of an auto project: the computed attributes are unknown in the plan. -/
def appPlan : PlanRequest ProjectModelAuto :=
  { Diagnostics := []
    Data := { ID := .unknown, Name := .value "app", Description := .null, Version := .value "1.0"
              Requirements := [], DependsOnRefs := .unknown, Kits := .unknown } }

/-- Kit `k` with the single requirement `r` at priority `p`. -/
def kitWithPriority (k : KitModel) (r : RequirementModel) (p : TfInt64) : KitModel :=
  { k with Requirements := [{ r with Priority := p }] }

/-- Kit and requirement used as concrete inputs. -/
def makeKit : KitModel :=
  { ID := .value "tool.make", Type_ := .value "tool", Name := .value "make"
    Description := .value "build tool", Version := .value "4.4", Requirements := [] }

/-- Requirement with one instruction and no verification. -/
def installRequirement : RequirementModel :=
  { Name := .value "install", Priority := .null, Instructions := [.value "apt install make"]
    Verification := none }

/-- Key `priority` that lines 194-197 give a project requirement: present exactly when the
priority is set. -/
def expectedPriority : TfInt64 → Option GoValue
  | .value n => some (.int64 n)
  | _ => none

/-- Requirement with neither priority, instructions nor verification. -/
def bareRequirement : RequirementModel :=
  { Name := .value "lint", Priority := .null, Instructions := [], Verification := none }

/-- Attributes of a kit requirement as `RequirementModel.ToObjectValue` encodes one without
verification. -/
def bareRequirementAttrs : List (String × AttrValue) :=
  [("name", .string (.value "lint")), ("instructions", .list (.value [])),
    ("verification", .object .null)]

/-- Output path that `writeOutputFile` uses (lines 155-163): the provider's, or `.tofukit`
without provider data. -/
def outputPathOf {V : Type} (providerData : Option (ProviderData V)) : String :=
  match providerData with
  | some provData => provData.GetOutputPath
  | none => ".tofukit"

/-- Output format that `writeOutputFile` uses (lines 156-163): the provider's, or `json`
without provider data. -/
def outputFormatOf {V : Type} (providerData : Option (ProviderData V)) : String :=
  match providerData with
  | some provData => provData.GetOutputFormat
  | none => "json"

/-- File name of line 321. -/
def outputFileName {V : Type} (providerData : Option (ProviderData V)) (os : Os)
    (data : ProjectModelFinal) : String :=
  os.Join (outputPathOf providerData)
    ("project-" ++ data.Name.ValueString ++ "." ++ outputFormatOf providerData)

/-- Effects of `writeOutputFile` once the document `doc`, whose `kits` entry has `n` keys,
is built: the branches of lines 166-334 in order. -/
def outputEffects {V : Type} (providerData : Option (ProviderData V)) (os : Os)
    (data : ProjectModelFinal) (doc : GoMap) (n : Nat) : List Effect :=
  if outputPathOf providerData = "" then []
  else
    match os.MkdirAll (outputPathOf providerData) with
    | some err =>
      [.mkdirAll (outputPathOf providerData),
        .log .error ("Failed to create output directory: " ++ err)]
    | none =>
      match os.MarshalIndent doc with
      | some err =>
        [.mkdirAll (outputPathOf providerData), .log .error ("Failed to marshal JSON: " ++ err)]
      | none =>
        match os.WriteFile (outputFileName providerData os data) with
        | some err =>
          [.mkdirAll (outputPathOf providerData),
            .writeFile (outputFileName providerData os data) doc,
            .log .error ("Failed to write file: " ++ err)]
        | none =>
          [.mkdirAll (outputPathOf providerData),
            .writeFile (outputFileName providerData os data) doc,
            .log .info ("Wrote project output to " ++ outputFileName providerData os data ++
              " with " ++ toString n ++ " kits")]

/-- Provider data configured with the given format and the default path. -/
def dataWithFormat (format : String) : ProviderData Unit :=
  { OutputFormat := format, OutputPath := ".tofukit", Registry := Registry.New }

/-- Project resource configured with the given provider data. -/
def projectResource {V : Type} (providerData : Option (ProviderData V)) : BaseComponent V :=
  { Kind := "", ProviderData := providerData }

/-- Operating system on which the directory cannot be created. -/
def readOnlyOs : Os :=
  { okOs with MkdirAll := fun _ => some "permission denied" }

/-- Document built line 177-186, with the given dependencies, requirements and kits in
place of the empty ones. -/
def documentOf (data : ProjectModelFinal) (deps : List String) (reqs : List GoMap)
    (kits : GoMap) : GoMap :=
  [("project", .map [("name", .string data.Name.ValueString),
      ("description", .string data.Description.ValueString),
      ("version", .string data.Version.ValueString),
      ("dependencies", .strings deps)]),
    ("requirements", .maps reqs),
    ("kits", .map kits)]

/-- Kits map with the keys `a` and `b`, iterated in this order. -/
def twoKits : List (String × AttrValue) :=
  [("a", sampleKit), ("b", sampleKit)]

/-- Kits map of `twoKits` iterated in the other order. -/
def twoKitsReversed : List (String × AttrValue) :=
  [("b", sampleKit), ("a", sampleKit)]

/-- Plan of a final project with a null kits map. -/
def finalPlan : PlanRequest ProjectModelFinal :=
  { Diagnostics := [], Data := projectWithKits .null }

/-- Provider configuration that sets the format and leaves the path out. -/
def yamlConfig : ConfigureRequest :=
  { Diagnostics := [], Data := { OutputFormat := .value "yaml", OutputPath := .null } }

/-- Provider configuration that sets nothing. -/
def nullConfig : ConfigureRequest :=
  { Diagnostics := [], Data := { OutputFormat := .null, OutputPath := .null } }

/-- Resources that `components.go` registers, one for each of its six kinds. -/
def componentResources : List (BaseComponent ComponentResourceModel) :=
  [NewFrameworkResource, NewToolResource, NewMethodologyResource, NewStyleResource,
    NewInfrastructureResource, NewIntegrationResource]

/-- Plan of a language with the given name. -/
def languagePlan (name : String) : PlanRequest LanguageResourceModel :=
  { Diagnostics := []
    Data := { ID := .unknown, Name := .value name, Description := .null, Version := .value "3.12"
              DependsOnRefs := [], Requirements := [] } }

/-- Plan of a blueprint with the given name. -/
def blueprintPlan (name : String) : PlanRequest BlueprintResourceModel :=
  { Diagnostics := []
    Data := { ID := .unknown, Name := .value name, Description := .null, Version := .value "1.0"
              DependsOnRefs := [] } }

/-- Auto project model with the given kits map and nothing else of interest. -/
def autoProjectWithKits (kits : TfMap AttrValue) : ProjectModelAuto :=
  { ID := .value "project.app", Name := .value "app", Description := .null
    Version := .value "1.0", Requirements := [], DependsOnRefs := .value [], Kits := kits }

/-- Attributes of a kit requirement whose instructions are a null list. -/
def noInstructionsAttrs : List (String × AttrValue) :=
  [("name", .string (.value "lint")), ("instructions", .list .null),
    ("verification", .object .null)]

/-- Kit object with the six attributes of the schema whose only requirement has the
attributes `noInstructionsAttrs`. -/
def noInstructionsKit : AttrValue :=
  .object (.value [("id", .string (.value "tool.make")), ("type", .string (.value "tool")),
    ("name", .string (.value "make")), ("description", .string .null),
    ("version", .string .null),
    ("requirements", .list (.value [.object (.value noInstructionsAttrs)]))])

/-- Attributes of a kit requirement whose instructions are a known list of two strings with
a null string between them. -/
def listedInstructionsAttrs : List (String × AttrValue) :=
  [("name", .string (.value "lint")),
    ("instructions", .list (.value [.string (.value "run make lint"), .string .null,
      .string (.value "fix the warnings")])),
    ("verification", .object .null)]

/-- Attributes of a kit requirement whose instructions are an unknown list. -/
def unknownInstructionsAttrs : List (String × AttrValue) :=
  [("name", .string (.value "lint")), ("instructions", .list .unknown),
    ("verification", .object .null)]

/-- Attributes of a kit requirement that has no `instructions` attribute. -/
def nameOnlyAttrs : List (String × AttrValue) :=
  [("name", .string (.value "lint")), ("verification", .object .null)]

/-- Provider data whose output path is the empty string. -/
def silentData : ProviderData Unit :=
  { OutputFormat := "json", OutputPath := "", Registry := Registry.New }

/-- Plan of a simplified project. -/
def simplifiedPlan : PlanRequest ProjectModelSimplified :=
  { Diagnostics := []
    Data := { ID := .unknown, Name := .value "app", Description := .null, Version := .value "1.0"
              DependsOnRefs := [refTo "tool.make"], Requirements := [], Kits := .null } }

/-- Effect that touches the file system: a directory creation or a file write. -/
def Effect.touchesFiles : Effect → Bool
  | .mkdirAll _ => true
  | .writeFile _ _ => true
  | .log _ _ => false

/-- Attributes of the object that `RequirementModel.ToObjectValue` returns. -/
def encodedRequirementAttrs (r : RequirementModel) : List (String × AttrValue) :=
  [("name", .string r.Name),
    ("instructions", .list (.value (r.Instructions.map AttrValue.string))),
    ("verification", .object
      (match r.Verification with
      | some v => .value [("command", .string v.Command), ("expect", .string v.Expect)]
      | none => .null))]

/-- Values of the instructions that are not null, in order. -/
def nonNullInstructions (insts : List TfString) : List String :=
  insts.filterMap fun inst => if inst.IsNull then none else some inst.ValueString

/-- Kit `tool.make` with the requirement `install` and a requirement with a verification. -/
def encodedSampleKit : KitModel :=
  { makeKit with
    Requirements := [installRequirement,
      { Name := .value "check", Priority := .value 3, Instructions := [.value "make check", .null]
        Verification := some { Command := .value "make --version", Expect := .null } }] }

/-- Entries that the loop of lines 285-293 of `project_auto.go` stores, in the order of the
iteration: one for each element that is an object. -/
def autoKitEntries (kitsMap : List (String × AttrValue)) : GoMap :=
  kitsMap.filterMap fun entry =>
    match assertObject (some entry.2) with
    | some kitObj => some (entry.1, .map (ProjectResourceAuto.extractKitData kitObj.Attributes))
    | none => none

/-- Resolution of a reference against the declared kits, in the words of the spec
("resolves each against the Registry"): the declared kit whose identifier the reference
names, references being written `@<id>`. -/
def specResolve (declared : List ComponentResourceModel) (ref : String) :
    Option ComponentResourceModel :=
  declared.find? fun kit => "@" ++ kit.ID.ValueString == ref

/-- Closure of the spec (section 4.3, closure mode and duplicate handling): each reference
still to visit is resolved, a kit reached for the first time is accumulated and its own
references are visited next, and a kit reached again is kept once, in first-discovery order.
The first argument bounds the number of visits. -/
def specClosure (declared : List ComponentResourceModel) :
    Nat → List String → List ComponentResourceModel → List ComponentResourceModel
  | 0, _, reached => reached
  | _ + 1, [], reached => reached
  | fuel + 1, ref :: rest, reached =>
    match specResolve declared ref with
    | none => specClosure declared fuel rest reached
    | some kit =>
      if reached.any (fun k => k.ID == kit.ID) then specClosure declared fuel rest reached
      else
        specClosure declared fuel (kit.DependsOnRefs.map TfString.ValueString ++ rest)
          (reached ++ [kit])

/-- Kits `language.python` and `framework.django`, the second referencing the first, as
state after their creation. -/
def declaredKits : List ComponentResourceModel :=
  [{ ID := .value "language.python", Name := .value "python", Description := .null
     Version := .value "1.0", DependsOnRefs := [], Requirements := [] },
    { ID := .value "framework.django", Name := .value "django", Description := .null
      Version := .value "1.0", DependsOnRefs := [refTo "language.python"], Requirements := [] }]

/-! ## Lemmas on Go maps -/

theorem mapGet_mapSet_self {α : Type} (m : List (String × α)) (key : String) (v : α) :
    mapGet (mapSet m key v) key = some v := by
  induction m with
  | nil => simp [mapSet, mapGet, List.lookup]
  | cons e rest ih =>
    obtain ⟨k, w⟩ := e
    by_cases h : k = key
    · subst h
      simp [mapSet, mapGet, List.lookup]
    · have h2 : (key == k) = false := by
        simp only [beq_eq_false_iff_ne, ne_eq]
        exact fun e => h e.symm
      simp only [mapSet, h, if_false, mapGet, List.lookup, h2]
      exact ih

theorem mapGet_mapSet_ne {α : Type} (m : List (String × α)) (key other : String) (v : α)
    (h : other ≠ key) : mapGet (mapSet m key v) other = mapGet m other := by
  induction m with
  | nil =>
    have h2 : (other == key) = false := by simpa using h
    simp [mapSet, mapGet, List.lookup, h2]
  | cons e rest ih =>
    obtain ⟨k, w⟩ := e
    by_cases hk : k = key
    · subst hk
      have h2 : (other == k) = false := by simpa using h
      simp [mapSet, mapGet, List.lookup, h2]
    · simp only [mapSet, hk, if_false, mapGet, List.lookup]
      cases hok : other == k with
      | true => rfl
      | false => exact ih

theorem mapSet_mapSet {α : Type} (m : List (String × α)) (key : String) (v w : α) :
    mapSet (mapSet m key v) key w = mapSet m key w := by
  induction m with
  | nil => simp [mapSet]
  | cons e rest ih =>
    obtain ⟨k, u⟩ := e
    by_cases hk : k = key
    · simp [mapSet, hk]
    · simp [mapSet, hk, ih]

theorem mapSet_eq_self {α : Type} (m : List (String × α)) (key : String) (v : α)
    (h : mapGet m key = some v) : mapSet m key v = m := by
  induction m with
  | nil => simp [mapGet] at h
  | cons e rest ih =>
    obtain ⟨k, u⟩ := e
    by_cases hk : k = key
    · subst hk
      simp [mapGet, List.lookup] at h
      simp [mapSet, h]
    · have h2 : (key == k) = false := by
        simp only [beq_eq_false_iff_ne, ne_eq]
        exact fun e => hk e.symm
      simp only [mapGet, List.lookup, h2] at h
      simp only [mapSet, hk, if_false]
      rw [ih h]

theorem addRequirements_ok (reqDatas : List GoMap) (outputData : GoMap) (xs : List GoMap)
    (h : mapGet outputData "requirements" = some (.maps xs)) :
    addRequirements reqDatas outputData =
      .ok (mapSet outputData "requirements" (.maps (xs ++ reqDatas))) := by
  induction reqDatas generalizing outputData xs with
  | nil =>
    simp only [addRequirements, List.append_nil]
    rw [mapSet_eq_self _ _ _ h]
  | cons r rest ih =>
    simp only [addRequirements, appendRequirement, h]
    rw [ih _ (xs ++ [r]) (mapGet_mapSet_self _ _ _), mapSet_mapSet]
    simp

/-! ## Lemmas on the final project document -/

theorem buildOutputData_eq (data : ProjectModelFinal) :
    buildOutputData data = .ok (addKits data.Kits
      [("project", .map [("name", .string data.Name.ValueString),
          ("description", .string data.Description.ValueString),
          ("version", .string data.Version.ValueString),
          ("dependencies", .strings [])]),
        ("requirements", .maps (data.Requirements.map projectRequirementData)),
        ("kits", .map [])]) := by
  unfold buildOutputData
  simp only []
  rw [addRequirements_ok _ _ [] (by simp [mapGet, List.lookup])]
  simp [mapSet]

theorem kitsStep_eq (acc : GoMap × List String) (entry : String × AttrValue) :
    kitsStep acc entry =
      if kitEmitted entry.2 then
        (mapSet acc.1 entry.1 (.map (kitData (TfObject.Attributes
          ((assertObject (some entry.2)).getD .null)))), acc.2 ++ ["@kit." ++ entry.1])
      else acc := by
  unfold kitsStep kitEmitted
  cases hobj : assertObject (some entry.2) with
  | none => simp
  | some kitObj =>
    cases hn : kitObj.IsNull with
    | true => simp [hn]
    | false =>
      by_cases hl : (kitData kitObj.Attributes).length > 0
      · simp [hn, hl]
      · simp [hn, hl]

theorem foldl_kitsStep_snd (kitsMap : List (String × AttrValue)) (acc : GoMap × List String) :
    (kitsMap.foldl kitsStep acc).2 =
      acc.2 ++ (kitsMap.filter fun e => kitEmitted e.2).map fun e => "@kit." ++ e.1 := by
  induction kitsMap generalizing acc with
  | nil => simp
  | cons e rest ih =>
    rw [List.foldl_cons, ih, kitsStep_eq]
    by_cases he : kitEmitted e.2 = true
    · simp [he, List.filter_cons]
    · simp [he, List.filter_cons]

theorem kitsLoop_snd (kitsMap : List (String × AttrValue)) :
    (kitsLoop kitsMap).2 =
      (kitsMap.filter fun e => kitEmitted e.2).map fun e => "@kit." ++ e.1 := by
  unfold kitsLoop
  rw [foldl_kitsStep_snd]
  simp

theorem documentDependencies_value (data : ProjectModelFinal)
    (kitsMap : List (String × AttrValue)) (hk : data.Kits = .value kitsMap) :
    (buildOutputData data).toOption.bind documentDependencies =
      some ((kitsMap.filter fun e => kitEmitted e.2).map fun e => "@kit." ++ e.1) := by
  rw [buildOutputData_eq, hk]
  simp [addKits, TfMap.IsNull, TfMap.IsUnknown, TfMap.Elements, mapSet, mapGet, List.lookup,
    documentDependencies, Except.toOption, kitsLoop_snd]

theorem kit_key_injective (a b : String) (h : "@kit." ++ a = "@kit." ++ b) : a = b := by
  have h2 := congrArg String.data h
  simp only [String.data_append] at h2
  exact String.ext (List.append_cancel_left h2)

/-! ## C1: dependencies computed from the kits map -/

/-- C1 (counterexample): for the kits map with the single key `x` bound to a kit whose
attributes are all null, the document is built and its `project.dependencies` is the empty
list, not the list holding `@kit.x`; the same holds when `x` is bound to a null object. -/
theorem C1_empty_kit_yields_no_dependency :
    (buildOutputData (projectWithKits (.value [("x", emptyKit)]))).toOption.bind
        documentDependencies = some [] ∧
      (buildOutputData (projectWithKits (.value [("x", emptyKit)]))).toOption.bind
        documentDependencies ≠ some ["@kit.x"] ∧
      (buildOutputData (projectWithKits (.value [("x", .object .null)]))).toOption.bind
        documentDependencies = some [] := by
  refine ⟨rfl, ?_, rfl⟩
  have h : (buildOutputData (projectWithKits (.value [("x", emptyKit)]))).toOption.bind
      documentDependencies = some [] := rfl
  rw [h]
  simp

/-- C1 (amended): for every project whose kits map is known and has pairwise different
keys, the document is built and `project.dependencies` lists, in iteration order, the entry
`@kit.<key>` of every key whose element is a non-null object from which at least one field
is extracted; it has no repeated entry and no other entry. -/
theorem C1_dependencies_are_emitted_kit_keys (data : ProjectModelFinal)
    (kitsMap : List (String × AttrValue)) (hk : data.Kits = .value kitsMap)
    (hnd : (mapKeys kitsMap).Nodup) :
    ∃ deps, (buildOutputData data).toOption.bind documentDependencies = some deps ∧
      deps = ((kitsMap.filter fun e => kitEmitted e.2).map fun e => "@kit." ++ e.1) ∧
      deps.Nodup ∧
      ∀ d, d ∈ deps ↔
        ∃ key kitValue, (key, kitValue) ∈ kitsMap ∧ kitEmitted kitValue = true ∧
          d = "@kit." ++ key := by
  refine ⟨_, documentDependencies_value data kitsMap hk, rfl, ?_, ?_⟩
  · have hsub : ((kitsMap.filter fun e => kitEmitted e.2).map Prod.fst).Sublist
        (kitsMap.map Prod.fst) := List.Sublist.map _ (List.filter_sublist _)
    have hnd2 := List.Nodup.sublist hsub hnd
    have hmap := List.Nodup.map 
      (fun (a b : String) (h : "@kit." ++ a = "@kit." ++ b) => kit_key_injective a b h) hnd2
    simpa [List.map_map, Function.comp] using hmap
  · intro d
    simp only [List.mem_map, List.mem_filter]
    constructor
    · rintro ⟨⟨key, kitValue⟩, ⟨hmem, hem⟩, rfl⟩
      exact ⟨key, kitValue, hmem, hem, rfl⟩
    · rintro ⟨key, kitValue, hmem, hem, rfl⟩
      exact ⟨(key, kitValue), ⟨hmem, hem⟩, rfl⟩

/-- C1 (witness): the kits map with the single key `x` bound to `sampleKit` yields the
dependencies `@kit.x` and nothing else. -/
theorem C1_dependencies_witness :
    (buildOutputData (projectWithKits (.value [("x", sampleKit)]))).toOption.bind
      documentDependencies = some ["@kit.x"] := by
  obtain ⟨deps, h1, h2, -⟩ := C1_dependencies_are_emitted_kit_keys
    (projectWithKits (.value [("x", sampleKit)])) [("x", sampleKit)] rfl
    (by simp [mapKeys])
  rw [h1, h2]
  rfl

/-! ## C2, C3: the auto project resource computes no closure -/

theorem buildAutoOutputData_ok (data : ProjectModelAuto) :
    ∃ doc, buildAutoOutputData data = .ok doc := by
  unfold buildAutoOutputData
  simp only []
  rw [addRequirements_ok _ _ [] (by simp [mapGet, List.lookup])]
  exact ⟨_, rfl⟩

theorem autoWriteOutputFile_ok {V : Type} (providerData : Option (ProviderData V)) (os : Os)
    (data : ProjectModelAuto) :
    ∃ effects, ProjectResourceAuto.writeOutputFile providerData os data = .ok effects := by
  obtain ⟨doc, hdoc⟩ := buildAutoOutputData_ok data
  unfold ProjectResourceAuto.writeOutputFile
  simp only [hdoc]
  split
  · exact ⟨_, rfl⟩
  · split
    · exact ⟨_, rfl⟩
    · split
      · exact ⟨_, rfl⟩
      · split
        · exact ⟨_, rfl⟩
        · exact ⟨_, rfl⟩

theorem specClosure_reaches_transitively :
    (specClosure declaredKits 5 ["@framework.django"] []).map (fun kit => kit.ID) =
      [.value "framework.django", .value "language.python"] := by
  decide

/-- C3 (counterexample): the tools `a` and `b` reference each other; both are created without
any diagnostic, and creating a project afterwards succeeds with no diagnostic and no error
or warning in the log: no cycle is reported. -/
theorem C3_cycle_is_not_reported :
    refTo "tool.b" ∈ (componentPlan "a" [refTo "tool.b"]).Data.DependsOnRefs ∧
      refTo "tool.a" ∈ (componentPlan "b" [refTo "tool.a"]).Data.DependsOnRefs ∧
      (ComponentResource.Create (sessionResource "tool")
        (componentPlan "a" [refTo "tool.b"])).Diagnostics = [] ∧
      (ComponentResource.Create (sessionResource "tool")
        (componentPlan "b" [refTo "tool.a"])).Diagnostics = [] ∧
      ∃ resp doc, ProjectResourceAuto.Create (sessionResource "project") okOs appPlan = .ok resp ∧
        resp.Diagnostics = [] ∧
        resp.Effects = [.mkdirAll ".tofukit", .writeFile ".tofukit/project-app.json" doc,
          .log .info "Wrote project output to .tofukit/project-app.json",
          .log .trace "created project resource: project.app"] := by
  refine ⟨by simp [componentPlan], by simp [componentPlan], rfl, rfl, ?_⟩
  exact ⟨_, _, rfl, rfl, rfl⟩

/-- C3 (amended): for every two components whose `depends_on_refs` reference each other
and whose plans decode without error, `ComponentResource.Create` sets the state of each,
keeping its references, and adds no diagnostic; and `ProjectResourceAuto.Create` then
returns, for every plan and operating system, with exactly the diagnostics of decoding the
plan: no cycle error is reported and nothing is traversed. -/
theorem C3_mutual_references_are_accepted {V : Type}
    (ra rb : BaseComponent ComponentResourceModel) (rp : BaseComponent V) (os : Os)
    (a b : PlanRequest ComponentResourceModel) (p : PlanRequest ProjectModelAuto)
    (_hab : refTo (rb.Kind ++ "." ++ b.Data.Name.ValueString) ∈ a.Data.DependsOnRefs)
    (_hba : refTo (ra.Kind ++ "." ++ a.Data.Name.ValueString) ∈ b.Data.DependsOnRefs)
    (ha : hasError a.Diagnostics = false) (hb : hasError b.Diagnostics = false) :
    (ComponentResource.Create ra a).Diagnostics = a.Diagnostics ∧
      (ComponentResource.Create ra a).State =
        some { a.Data with ID := .value (ra.Kind ++ "." ++ a.Data.Name.ValueString) } ∧
      (ComponentResource.Create rb b).Diagnostics = b.Diagnostics ∧
      (ComponentResource.Create rb b).State =
        some { b.Data with ID := .value (rb.Kind ++ "." ++ b.Data.Name.ValueString) } ∧
      ∃ resp, ProjectResourceAuto.Create rp os p = .ok resp ∧
        resp.Diagnostics = p.Diagnostics := by
  refine ⟨?_, ?_, ?_, ?_, ?_⟩
  · simp [ComponentResource.Create, ha]
  · simp [ComponentResource.Create, ha]
  · simp [ComponentResource.Create, hb]
  · simp [ComponentResource.Create, hb]
  · unfold ProjectResourceAuto.Create
    by_cases hp : hasError p.Diagnostics = true
    · simp only [hp, if_true]
      exact ⟨_, rfl, rfl⟩
    · simp only [hp, if_false]
      obtain ⟨effects, heff⟩ := autoWriteOutputFile_ok rp.ProviderData os
        { p.Data with
          ID := .value ("project." ++ p.Data.Name.ValueString)
          DependsOnRefs := .value []
          Kits := .value [] }
      simp only [heff]
      exact ⟨_, rfl, rfl⟩

/-- C3 (witness): the tools `a` and `b` referencing each other, and the project `app`. -/
theorem C3_mutual_references_witness :
    (ComponentResource.Create (sessionResource "tool")
        (componentPlan "a" [refTo "tool.b"])).Diagnostics = [] ∧
      (ComponentResource.Create (sessionResource "tool") (componentPlan "a" [refTo "tool.b"])).State =
        some { (componentPlan "a" [refTo "tool.b"]).Data with ID := .value "tool.a" } ∧
      (ComponentResource.Create (sessionResource "tool")
        (componentPlan "b" [refTo "tool.a"])).Diagnostics = [] ∧
      (ComponentResource.Create (sessionResource "tool") (componentPlan "b" [refTo "tool.a"])).State =
        some { (componentPlan "b" [refTo "tool.a"]).Data with ID := .value "tool.b" } ∧
      ∃ resp, ProjectResourceAuto.Create (sessionResource "project") okOs appPlan = .ok resp ∧
        resp.Diagnostics = [] :=
  C3_mutual_references_are_accepted (sessionResource "tool") (sessionResource "tool")
    (sessionResource "project") okOs (componentPlan "a" [refTo "tool.b"])
    (componentPlan "b" [refTo "tool.a"]) appPlan
    (by simp [componentPlan, sessionResource, refTo, TfString.ValueString])
    (by simp [componentPlan, sessionResource, refTo, TfString.ValueString]) rfl rfl

/-! ## C4: the registry -/

/-- C4 (code at the failing input and everywhere else): a lookup that follows a save of
the same identifier returns `nil, false`, for every resource, identifier and value saved;
so does a lookup on the untouched resource and one after a removal. -/
theorem C4_lookup_after_save_finds_nothing {V : Type} (r : BaseComponent V) (id : String)
    (data : V) :
    (BaseComponent.GetFromRegistry (r.SaveToRegistry id data).1 id).1 = (none, false) ∧
      (r.SaveToRegistry id data).1 = r ∧
      (r.GetFromRegistry id).1 = (none, false) ∧
      (BaseComponent.GetFromRegistry (r.RemoveFromRegistry id).1 id).1 = (none, false) :=
  ⟨rfl, rfl, rfl, rfl⟩

/-! ## C5: the kit encoding -/

/-- C5 (code at the failing input and everywhere else): the encoding of a kit does not
depend on the priority of its requirement, although the kits differ exactly when the
priorities do; the kit `tool.make` with the requirement `install` at priority 5 and at
priority 9 is one instance. -/
theorem C5_encoding_forgets_priority (k : KitModel) (r : RequirementModel) (p q : TfInt64) :
    (kitWithPriority k r p).ToObjectValue = (kitWithPriority k r q).ToObjectValue ∧
      (kitWithPriority k r p = kitWithPriority k r q ↔ p = q) ∧
      (kitWithPriority makeKit installRequirement (.value 5)).ToObjectValue =
        (kitWithPriority makeKit installRequirement (.value 9)).ToObjectValue ∧
      kitWithPriority makeKit installRequirement (.value 5) ≠
        kitWithPriority makeKit installRequirement (.value 9) := by
  refine ⟨?_, ?_, rfl, by decide⟩
  · cases hv : r.Verification <;>
      simp [kitWithPriority, KitModel.ToObjectValue, requirementValues,
        RequirementModel.ToObjectValue, VerificationModel.ToObjectValue, hv]
  · constructor
    · intro h
      simp [kitWithPriority] at h
      exact h
    · intro h
      rw [h]

/-! ## C6-C9: serialization of requirements -/

theorem documentRequirements_eq (data : ProjectModelFinal) :
    (buildOutputData data).toOption.bind documentRequirements =
      some (data.Requirements.map projectRequirementData) := by
  rw [buildOutputData_eq]
  cases hk : data.Kits <;>
    simp [addKits, TfMap.IsNull, TfMap.IsUnknown, TfMap.Elements, mapSet, mapGet, List.lookup,
      documentRequirements, Except.toOption]

theorem projectRequirementData_get_name (req : RequirementModel) :
    mapGet (projectRequirementData req) "name" = some (.string req.Name.ValueString) := by
  unfold projectRequirementData
  cases req.Verification <;> cases req.Priority <;>
    simp [mapSet, mapGet, List.lookup, TfInt64.IsNull, TfInt64.IsUnknown]

theorem projectRequirementData_get_priority (req : RequirementModel) :
    mapGet (projectRequirementData req) "priority" = expectedPriority req.Priority := by
  unfold projectRequirementData
  cases req.Verification <;> cases req.Priority <;>
    simp [mapSet, mapGet, List.lookup, TfInt64.IsNull, TfInt64.IsUnknown, expectedPriority,
      TfInt64.ValueInt64]

theorem projectRequirementData_get_instructions (req : RequirementModel) :
    mapGet (projectRequirementData req) "instructions" =
      some (.strings (knownInstructions req.Instructions)) := by
  unfold projectRequirementData
  cases req.Verification <;> cases req.Priority <;>
    simp [mapSet, mapGet, List.lookup, TfInt64.IsNull, TfInt64.IsUnknown]

theorem projectRequirementData_get_verification (req : RequirementModel) :
    mapGet (projectRequirementData req) "verification" =
      req.Verification.map fun v =>
        .stringMap [("command", v.Command.ValueString), ("expect", v.Expect.ValueString)] := by
  unfold projectRequirementData
  cases req.Verification <;> cases req.Priority <;>
    simp [mapSet, mapGet, List.lookup, TfInt64.IsNull, TfInt64.IsUnknown]

theorem setStringField_get_ne (m : GoMap) (attrs : List (String × AttrValue))
    (key other : String) (h : other ≠ key) :
    mapGet (setStringField m attrs key) other = mapGet m other := by
  unfold setStringField
  split
  · split
    · exact mapGet_mapSet_ne _ _ _ _ h
    · rfl
  · rfl

theorem setPriorityField_get_ne (m : GoMap) (attrs : List (String × AttrValue))
    (other : String) (h : other ≠ "priority") :
    mapGet (setPriorityField m attrs) other = mapGet m other := by
  unfold setPriorityField
  split
  · split
    · exact mapGet_mapSet_ne _ _ _ _ h
    · rfl
  · rfl

theorem setInstructionsField_get_ne (m : GoMap) (attrs : List (String × AttrValue))
    (other : String) (h : other ≠ "instructions") :
    mapGet (setInstructionsField m attrs) other = mapGet m other := by
  unfold setInstructionsField
  split
  · split
    · exact mapGet_mapSet_ne _ _ _ _ h
    · rfl
  · rfl

theorem setVerificationField_get_ne (m : GoMap) (attrs : List (String × AttrValue))
    (other : String) (h : other ≠ "verification") :
    mapGet (setVerificationField m attrs) other = mapGet m other := by
  unfold setVerificationField
  split
  · split
    · simp only []
      split
      · exact mapGet_mapSet_ne _ _ _ _ h
      · rfl
    · rfl
  · rfl

theorem addKits_get_kits (kits : TfMap AttrValue) (p : GoMap) (reqs : List GoMap) :
    ∃ ks, mapGet (addKits kits [("project", .map p), ("requirements", .maps reqs),
      ("kits", .map [])]) "kits" = some (.map ks) := by
  cases kits <;>
    simp [addKits, TfMap.IsNull, TfMap.IsUnknown, TfMap.Elements, mapSet, mapGet, List.lookup]

theorem writeOutputFile_content {V : Type} (providerData : Option (ProviderData V)) (os : Os)
    (data : ProjectModelFinal) (effects : List Effect) (name : String) (content : GoMap)
    (h : ProjectResourceFinal.writeOutputFile providerData os data = .ok effects)
    (hm : Effect.writeFile name content ∈ effects) : buildOutputData data = .ok content := by
  unfold ProjectResourceFinal.writeOutputFile at h
  rw [buildOutputData_eq] at h ⊢
  obtain ⟨ks, hks⟩ := addKits_get_kits data.Kits
    [("name", .string data.Name.ValueString),
      ("description", .string data.Description.ValueString),
      ("version", .string data.Version.ValueString), ("dependencies", .strings [])]
    (data.Requirements.map projectRequirementData)
  simp only [hks] at h
  split at h
  · cases h
    simp at hm
  · split at h
    · cases h
      simp at hm
    · split at h
      · cases h
        simp at hm
      · split at h
        · cases h
          simp at hm
          rw [hm.2]
        · cases h
          simp at hm
          rw [hm.2]

theorem writeOutputFile_success {V : Type} (providerData : Option (ProviderData V)) (os : Os)
    (data : ProjectModelFinal) (hp : providerData.map (fun d => d.GetOutputPath) ≠ some "")
    (hmk : ∀ path, os.MkdirAll path = none) (hms : ∀ doc, os.MarshalIndent doc = none)
    (hwr : ∀ name, os.WriteFile name = none) :
    ∃ path name doc msg, buildOutputData data = .ok doc ∧
      ProjectResourceFinal.writeOutputFile providerData os data =
        .ok [.mkdirAll path, .writeFile name doc, .log .info msg] := by
  unfold ProjectResourceFinal.writeOutputFile
  rw [buildOutputData_eq]
  obtain ⟨ks, hks⟩ := addKits_get_kits data.Kits
    [("name", .string data.Name.ValueString),
      ("description", .string data.Description.ValueString),
      ("version", .string data.Version.ValueString), ("dependencies", .strings [])]
    (data.Requirements.map projectRequirementData)
  simp only [hks, hmk, hms, hwr]
  cases providerData with
  | none =>
    simp only []
    rw [if_neg (by decide)]
    exact ⟨_, _, _, _, rfl, rfl⟩
  | some d =>
    have hne : ¬ d.GetOutputPath = "" := by simpa using hp
    simp only []
    rw [if_neg hne]
    exact ⟨_, _, _, _, rfl, rfl⟩

/-- C6: a project requirement whose `Verification` is nil is written, at its position in
`requirements`, without a `verification` key; and a kit requirement whose `verification`
attribute is a null object is extracted without a `verification` key. -/
theorem C6_no_verification_key_when_absent (data : ProjectModelFinal) (i : Nat)
    (req : RequirementModel) (reqAttrs : List (String × AttrValue))
    (hi : data.Requirements[i]? = some req) (hreq : req.Verification = none)
    (hattr : attrIndex reqAttrs "verification" = some (.object .null)) :
    (∃ out e, (buildOutputData data).toOption.bind documentRequirements = some out ∧
        out[i]? = some e ∧ mapGet e "verification" = none) ∧
      mapGet (kitRequirementData reqAttrs) "verification" = none := by
  constructor
  · refine ⟨_, projectRequirementData req, documentRequirements_eq data, ?_, ?_⟩
    · rw [List.getElem?_map, hi]
      rfl
    · rw [projectRequirementData_get_verification, hreq]
      rfl
  · unfold kitRequirementData
    simp only []
    have hv : ∀ m, setVerificationField m reqAttrs = m := by
      intro m
      simp [setVerificationField, hattr, assertObject, TfObject.IsNull]
    rw [hv, setInstructionsField_get_ne _ _ _ (by decide),
      setPriorityField_get_ne _ _ _ (by decide), setStringField_get_ne _ _ _ _ (by decide)]
    rfl

/-- C6 (witness): the project whose only requirement is `bareRequirement`, and the kit
requirement attributes `bareRequirementAttrs`. -/
theorem C6_no_verification_key_witness :
    (∃ out e, (buildOutputData { projectWithKits .null with
          Requirements := [bareRequirement] }).toOption.bind documentRequirements = some out ∧
        out[0]? = some e ∧ mapGet e "verification" = none) ∧
      mapGet (kitRequirementData bareRequirementAttrs) "verification" = none :=
  C6_no_verification_key_when_absent
    { projectWithKits .null with Requirements := [bareRequirement] } 0 bareRequirement
    bareRequirementAttrs rfl rfl rfl

/-- C7: the `requirements` list of the document has the length of the input list and its
entries carry, position by position, the names of the input requirements. -/
theorem C7_requirements_keep_input_order (data : ProjectModelFinal) :
    ∃ out, (buildOutputData data).toOption.bind documentRequirements = some out ∧
      out.length = data.Requirements.length ∧
      out.map (fun e => mapGet e "name") =
        data.Requirements.map fun req => some (.string req.Name.ValueString) := by
  refine ⟨_, documentRequirements_eq data, by simp, ?_⟩
  rw [List.map_map]
  apply List.map_congr_left
  intro req _
  exact projectRequirementData_get_name req

/-- C8: position by position, a written project requirement has the key `priority` exactly
when the priority of the input requirement is set (neither null nor unknown), with the set
integer as value; a requirement without priority and the same requirement with priority 0
are written differently. -/
theorem C8_priority_key_iff_set (data : ProjectModelFinal) (req : RequirementModel) (n : Int) :
    ((buildOutputData data).toOption.bind documentRequirements).map
        (List.map fun e => mapGet e "priority") =
        some (data.Requirements.map fun r => expectedPriority r.Priority) ∧
      (mapGet (projectRequirementData req) "priority" = some (.int64 n) ↔
        req.Priority = .value n) ∧
      (mapGet (projectRequirementData req) "priority" = none ↔
        (req.Priority.IsNull = true ∨ req.Priority.IsUnknown = true)) ∧
      projectRequirementData { req with Priority := .null } ≠
        projectRequirementData { req with Priority := .value 0 } := by
  refine ⟨?_, ?_, ?_, ?_⟩
  · rw [documentRequirements_eq]
    simp only [Option.map_some', List.map_map]
    congr 1
    apply List.map_congr_left
    intro r _
    exact projectRequirementData_get_priority r
  · rw [projectRequirementData_get_priority]
    cases req.Priority <;> simp [expectedPriority]
  · rw [projectRequirementData_get_priority]
    cases req.Priority <;> simp [expectedPriority, TfInt64.IsNull, TfInt64.IsUnknown]
  · intro h
    have h2 := congrArg (fun m => mapGet m "priority") h
    simp only [projectRequirementData_get_priority] at h2
    simp [expectedPriority] at h2

/-- C9: position by position, a written project requirement has the key `instructions`,
bound to the list of the instructions that are neither null nor unknown; for a requirement
without instructions it is the empty list. -/
theorem C9_instructions_key_always_present (data : ProjectModelFinal) (req : RequirementModel) :
    ((buildOutputData data).toOption.bind documentRequirements).map
        (List.map fun e => mapGet e "instructions") =
        some (data.Requirements.map fun r =>
          some (.strings (knownInstructions r.Instructions))) ∧
      mapGet (projectRequirementData { req with Instructions := [] }) "instructions" =
        some (.strings []) := by
  refine ⟨?_, ?_⟩
  · rw [documentRequirements_eq]
    simp only [Option.map_some', List.map_map]
    congr 1
    apply List.map_congr_left
    intro r _
    exact projectRequirementData_get_instructions r
  · rw [projectRequirementData_get_instructions]
    rfl

/-! ## C10: wrong shapes in the kits map -/

theorem writeOutputFile_eq {V : Type} (providerData : Option (ProviderData V)) (os : Os)
    (data : ProjectModelFinal) :
    ∃ doc ks, buildOutputData data = .ok doc ∧ mapGet doc "kits" = some (.map ks) ∧
      ProjectResourceFinal.writeOutputFile providerData os data =
        .ok (outputEffects providerData os data doc ks.length) := by
  obtain ⟨ks, hks⟩ := addKits_get_kits data.Kits
    [("name", .string data.Name.ValueString),
      ("description", .string data.Description.ValueString),
      ("version", .string data.Version.ValueString), ("dependencies", .strings [])]
    (data.Requirements.map projectRequirementData)
  refine ⟨_, ks, buildOutputData_eq data, hks, ?_⟩
  unfold ProjectResourceFinal.writeOutputFile outputEffects outputFileName
  rw [buildOutputData_eq]
  simp only [hks]
  cases providerData <;>
  · simp only [outputPathOf, outputFormatOf]
    split
    · rfl
    · split
      · rfl
      · split
        · rfl
        · split
          · rfl
          · rfl

theorem buildOutputData_shape (data : ProjectModelFinal) :
    buildOutputData data = .ok
      (if !data.Kits.IsNull && !data.Kits.IsUnknown then
        documentOf data (kitsLoop data.Kits.Elements).2
          (data.Requirements.map projectRequirementData) (kitsLoop data.Kits.Elements).1
      else documentOf data [] (data.Requirements.map projectRequirementData) []) := by
  rw [buildOutputData_eq]
  cases data.Kits <;>
    simp [addKits, TfMap.IsNull, TfMap.IsUnknown, TfMap.Elements, mapSet, mapGet, List.lookup,
      documentOf]

/-! ## C11: empty or null kits map -/

/-- C11: for a project whose kits map is null or empty, when the output path is not empty
and the directory creation, the marshalling and the file write succeed, the writer returns
after writing one file whose document has `project.dependencies` equal to the empty list
and `kits` equal to the empty map, and it logs no error. -/
theorem C11_empty_kits_yield_empty_sections {V : Type} (providerData : Option (ProviderData V))
    (os : Os) (data : ProjectModelFinal)
    (hk : data.Kits = .null ∨ data.Kits = .value [])
    (hp : outputPathOf providerData ≠ "")
    (hmk : ∀ path, os.MkdirAll path = none) (hms : ∀ doc, os.MarshalIndent doc = none)
    (hwr : ∀ name, os.WriteFile name = none) :
    ∃ doc msg, buildOutputData data = .ok doc ∧
      documentDependencies doc = some [] ∧ documentKits doc = some [] ∧
      ProjectResourceFinal.writeOutputFile providerData os data =
        .ok [.mkdirAll (outputPathOf providerData),
          .writeFile (outputFileName providerData os data) doc, .log .info msg] := by
  obtain ⟨doc, ks, hdoc, -, hw⟩ := writeOutputFile_eq providerData os data
  refine ⟨doc, "Wrote project output to " ++ outputFileName providerData os data ++
    " with " ++ toString ks.length ++ " kits", hdoc, ?_, ?_, ?_⟩
  · have hs := buildOutputData_shape data
    rw [hdoc] at hs
    cases hs
    rcases hk with hk | hk <;> rw [hk] <;> rfl
  · have hs := buildOutputData_shape data
    rw [hdoc] at hs
    cases hs
    rcases hk with hk | hk <;> rw [hk] <;> rfl
  · rw [hw]
    simp only [outputEffects, hp, if_false, hmk, hms, hwr]

/-- C11 (witness): the project `app` with a null kits map, on an operating system where
every call succeeds and without provider data. -/
theorem C11_empty_kits_witness :
    ∃ doc msg, buildOutputData (projectWithKits .null) = .ok doc ∧
      documentDependencies doc = some [] ∧ documentKits doc = some [] ∧
      ProjectResourceFinal.writeOutputFile (none : Option (ProviderData Unit)) okOs
          (projectWithKits .null) =
        .ok [.mkdirAll (outputPathOf (none : Option (ProviderData Unit))),
          .writeFile (outputFileName (none : Option (ProviderData Unit)) okOs
            (projectWithKits .null)) doc, .log .info msg] :=
  C11_empty_kits_yield_empty_sections none okOs (projectWithKits .null) (Or.inl rfl)
    (by decide) (fun _ => rfl) (fun _ => rfl) (fun _ => rfl)

/-! ## C12: order of the dependencies -/

/-- C12 (counterexample): the kits map with the keys `a` and `b` iterated in the two
possible orders yields two different dependency lists. -/
theorem C12_dependency_order_follows_iteration :
    twoKits.Perm twoKitsReversed ∧
      (buildOutputData (projectWithKits (.value twoKits))).toOption.bind documentDependencies =
        some ["@kit.a", "@kit.b"] ∧
      (buildOutputData (projectWithKits (.value twoKitsReversed))).toOption.bind
        documentDependencies = some ["@kit.b", "@kit.a"] ∧
      (buildOutputData (projectWithKits (.value twoKits))).toOption.bind documentDependencies ≠
        (buildOutputData (projectWithKits (.value twoKitsReversed))).toOption.bind
          documentDependencies := by
  have h1 : (buildOutputData (projectWithKits (.value twoKits))).toOption.bind
      documentDependencies = some ["@kit.a", "@kit.b"] := rfl
  have h2 : (buildOutputData (projectWithKits (.value twoKitsReversed))).toOption.bind
      documentDependencies = some ["@kit.b", "@kit.a"] := rfl
  refine ⟨List.Perm.swap _ _ _, h1, h2, ?_⟩
  rw [h1, h2]
  decide

/-- C12 (amended): two iterations of the same kits map, in whatever orders, yield
dependency lists with the same entries, each the same number of times: the lists are
permutations of each other. -/
theorem C12_dependencies_are_permutations (data1 data2 : ProjectModelFinal)
    (kits1 kits2 : List (String × AttrValue))
    (h1 : data1.Kits = .value kits1) (h2 : data2.Kits = .value kits2)
    (hperm : kits1.Perm kits2) :
    ∃ deps1 deps2,
      (buildOutputData data1).toOption.bind documentDependencies = some deps1 ∧
      (buildOutputData data2).toOption.bind documentDependencies = some deps2 ∧
      deps1.Perm deps2 :=
  ⟨_, _, documentDependencies_value data1 kits1 h1, documentDependencies_value data2 kits2 h2,
    List.Perm.map _ (List.Perm.filter _ hperm)⟩

/-- C12 (witness): the two iteration orders of the kits map with the keys `a` and `b`. -/
theorem C12_dependencies_witness :
    ∃ deps1 deps2,
      (buildOutputData (projectWithKits (.value twoKits))).toOption.bind documentDependencies =
        some deps1 ∧
      (buildOutputData (projectWithKits (.value twoKitsReversed))).toOption.bind
        documentDependencies = some deps2 ∧
      deps1.Perm deps2 :=
  C12_dependencies_are_permutations (projectWithKits (.value twoKits))
    (projectWithKits (.value twoKitsReversed)) twoKits twoKitsReversed rfl rfl
    (List.Perm.swap _ _ _)

/-! ## C13: keys of the document -/

/-- C13: the document built has exactly the keys `project`, `requirements` and `kits`; its
`project` entry is a map with exactly the keys `name`, `description`, `version` and
`dependencies`, the first three bound to the values of the project's name, description and
version and the last to a list of strings; and every document the writer writes is this
one. -/
theorem C13_document_has_fixed_keys {V : Type} (providerData : Option (ProviderData V))
    (os : Os) (data : ProjectModelFinal) :
    ∃ doc projectData deps, buildOutputData data = .ok doc ∧
      mapKeys doc = ["project", "requirements", "kits"] ∧
      mapGet doc "project" = some (.map projectData) ∧
      mapKeys projectData = ["name", "description", "version", "dependencies"] ∧
      mapGet projectData "name" = some (.string data.Name.ValueString) ∧
      mapGet projectData "description" = some (.string data.Description.ValueString) ∧
      mapGet projectData "version" = some (.string data.Version.ValueString) ∧
      mapGet projectData "dependencies" = some (.strings deps) ∧
      ∀ effects name content,
        ProjectResourceFinal.writeOutputFile providerData os data = .ok effects →
        Effect.writeFile name content ∈ effects → content = doc := by
  have hs := buildOutputData_shape data
  have hlink : ∀ doc, buildOutputData data = .ok doc → ∀ effects name content,
      ProjectResourceFinal.writeOutputFile providerData os data = .ok effects →
      Effect.writeFile name content ∈ effects → content = doc := by
    intro doc hdoc effects name content hw hm
    have hc := writeOutputFile_content providerData os data effects name content hw hm
    rw [hdoc] at hc
    cases hc
    rfl
  by_cases hc : (!data.Kits.IsNull && !data.Kits.IsUnknown) = true
  · rw [if_pos hc] at hs
    exact ⟨_, _, _, hs, rfl, rfl, rfl, rfl, rfl, rfl, rfl, hlink _ hs⟩
  · rw [if_neg hc] at hs
    exact ⟨_, _, _, hs, rfl, rfl, rfl, rfl, rfl, rfl, rfl, hlink _ hs⟩

/-! ## C14: output format -/

/-- C14 (code at the failing input and everywhere else): whatever the configured format,
on an operating system where every call succeeds the writer creates the directory, writes
the very document it builds for `json` to the file with the format as extension (the join
of `.tofukit` with `project-<name>.<format>`), and logs the success line and no error; for
`yaml` the file is `.tofukit/project-app.yaml`. -/
theorem C14_any_format_is_written_as_json (format : String) (data : ProjectModelFinal) :
    (∃ doc msg, buildOutputData data = .ok doc ∧
      ProjectResourceFinal.writeOutputFile (some (dataWithFormat format)) okOs data =
        .ok [.mkdirAll ".tofukit",
          .writeFile (filepathJoin ".tofukit"
            ("project-" ++ data.Name.ValueString ++ "." ++ format)) doc,
          .log .info msg]) ∧
      ProjectResourceFinal.writeOutputFile (some (dataWithFormat "yaml")) okOs
          (projectWithKits .null) =
        .ok [.mkdirAll ".tofukit",
          .writeFile ".tofukit/project-app.yaml"
            [("project", .map [("name", .string "app"), ("description", .string ""),
                ("version", .string "1.0"), ("dependencies", .strings [])]),
              ("requirements", .maps []), ("kits", .map [])],
          .log .info "Wrote project output to .tofukit/project-app.yaml with 0 kits"] := by
  refine ⟨?_, rfl⟩
  obtain ⟨doc, ks, hdoc, -, hw⟩ := writeOutputFile_eq (some (dataWithFormat format)) okOs data
  rw [hw]
  exact ⟨doc, _, hdoc, rfl⟩

/-! ## C15: file name -/

/-- C16: when the output path is not empty the writer returns, the first thing it does is
the recursive creation of the output directory, which it does once, and when that creation
fails it attempts no file write. -/
theorem C16_directory_is_created_first {V : Type} (providerData : Option (ProviderData V))
    (os : Os) (data : ProjectModelFinal) (hp : outputPathOf providerData ≠ "") :
    ∃ tail, ProjectResourceFinal.writeOutputFile providerData os data =
        .ok (.mkdirAll (outputPathOf providerData) :: tail) ∧
      (∀ path, Effect.mkdirAll path ∉ tail) ∧
      (os.MkdirAll (outputPathOf providerData) ≠ none →
        ∀ name content, Effect.writeFile name content ∉ tail) := by
  obtain ⟨doc, ks, -, -, hw⟩ := writeOutputFile_eq providerData os data
  rw [hw]
  simp only [outputEffects, if_neg hp]
  split
  · exact ⟨_, rfl, by simp, fun _ => by simp⟩
  · rename_i hmk
    split
    · exact ⟨_, rfl, by simp, fun h => absurd hmk h⟩
    · split
      · exact ⟨_, rfl, by simp, fun h => absurd hmk h⟩
      · exact ⟨_, rfl, by simp, fun h => absurd hmk h⟩

/-- C16 (witness): without provider data, on an operating system where the directory
cannot be created. -/
theorem C16_directory_witness :
    ∃ tail, ProjectResourceFinal.writeOutputFile (none : Option (ProviderData Unit)) readOnlyOs
          (projectWithKits .null) =
        .ok (.mkdirAll (outputPathOf (none : Option (ProviderData Unit))) :: tail) ∧
      (∀ path, Effect.mkdirAll path ∉ tail) ∧
      (readOnlyOs.MkdirAll (outputPathOf (none : Option (ProviderData Unit))) ≠ none →
        ∀ name content, Effect.writeFile name content ∉ tail) :=
  C16_directory_is_created_first none readOnlyOs (projectWithKits .null) (by decide)

/-- C18: for every resource, every operating system (whatever the outcome of the directory
creation, the marshalling and the file write) and every plan decoded without error,
`ProjectResourceFinal.Create` returns, sets the state to the planned data with the
identifier `project.<name>` and leaves the diagnostics as the decoding left them. -/
theorem C18_create_sets_state_whatever_io {V : Type} (r : BaseComponent V) (os : Os)
    (req : PlanRequest ProjectModelFinal) (hreq : hasError req.Diagnostics = false) :
    ∃ resp, ProjectResourceFinal.Create r os req = .ok resp ∧
      resp.State =
        some { req.Data with ID := .value ("project." ++ req.Data.Name.ValueString) } ∧
      resp.Diagnostics = req.Diagnostics := by
  obtain ⟨doc, ks, -, -, hw⟩ := writeOutputFile_eq r.ProviderData os
    { req.Data with ID := .value ("project." ++ req.Data.Name.ValueString) }
  unfold ProjectResourceFinal.Create
  simp only [hreq, Bool.false_eq_true, if_false, hw]
  exact ⟨_, rfl, rfl, rfl⟩

/-- C18 (witness): the plan of the project `app` on an operating system where the
directory cannot be created. -/
theorem C18_create_witness :
    ∃ resp, ProjectResourceFinal.Create (projectResource (none : Option (ProviderData Unit)))
        readOnlyOs finalPlan = .ok resp ∧
      resp.State =
        some { finalPlan.Data with ID := .value ("project." ++ finalPlan.Data.Name.ValueString) } ∧
      resp.Diagnostics = finalPlan.Diagnostics :=
  C18_create_sets_state_whatever_io (projectResource none) readOnlyOs finalPlan rfl

/-- C19: for every resource, operating system and prior state, `ProjectResourceFinal.Delete`
has no effect at all (no directory creation, no file write, no log line) and adds no
diagnostic; the effects of a `Create` followed by it are those of the `Create`. -/
theorem C19_delete_has_no_effect {V : Type} (r : BaseComponent V) (os : Os)
    (state : ProjectModelFinal) (created : List Effect) :
    (ProjectResourceFinal.Delete r os state).Effects = [] ∧
      (ProjectResourceFinal.Delete r os state).Diagnostics = [] ∧
      created ++ (ProjectResourceFinal.Delete r os state).Effects = created := by
  refine ⟨rfl, rfl, ?_⟩
  simp [ProjectResourceFinal.Delete]

/-! ## C20: provider configuration and defaults -/

/-- C20: when the configuration decodes without error, `Configure` hands to resources and
data sources provider data whose format is `json` when `output_format` is null and its
value otherwise, and whose path is `.tofukit` when `output_path` is null and its value
otherwise; and the writer without provider data behaves as with the provider data that
`Configure` yields for a configuration that sets nothing. -/
theorem C20_configure_defaults {V : Type} (req : ConfigureRequest) (os : Os)
    (data : ProjectModelFinal) (hreq : hasError req.Diagnostics = false) :
    (∃ provData : ProviderData V,
      (TofukitProvider.Configure req).ResourceData = some provData ∧
      (TofukitProvider.Configure req).DataSourceData = some provData ∧
      provData.OutputFormat =
        (if req.Data.OutputFormat.IsNull then "json" else req.Data.OutputFormat.ValueString) ∧
      provData.OutputPath =
        (if req.Data.OutputPath.IsNull then ".tofukit" else req.Data.OutputPath.ValueString)) ∧
      (TofukitProvider.Configure nullConfig).ResourceData =
        some ({ OutputFormat := "json", OutputPath := ".tofukit", Registry := Registry.New } :
          ProviderData V) ∧
      ProjectResourceFinal.writeOutputFile (none : Option (ProviderData V)) os data =
        ProjectResourceFinal.writeOutputFile
          (TofukitProvider.Configure nullConfig : ConfigureResponse V).ResourceData os data := by
  refine ⟨?_, rfl, rfl⟩
  unfold TofukitProvider.Configure
  simp only [hreq, Bool.false_eq_true, if_false]
  refine ⟨_, rfl, rfl, ?_, ?_⟩
  · cases req.Data.OutputFormat <;> simp [TfString.IsNull]
  · cases req.Data.OutputPath <;> simp [TfString.IsNull]

/-- C20 (witness): the configuration that sets the format `yaml` and no path. -/
theorem C20_configure_witness :
    (∃ provData : ProviderData Unit,
      (TofukitProvider.Configure yamlConfig).ResourceData = some provData ∧
      (TofukitProvider.Configure yamlConfig).DataSourceData = some provData ∧
      provData.OutputFormat =
        (if yamlConfig.Data.OutputFormat.IsNull then "json"
          else yamlConfig.Data.OutputFormat.ValueString) ∧
      provData.OutputPath =
        (if yamlConfig.Data.OutputPath.IsNull then ".tofukit"
          else yamlConfig.Data.OutputPath.ValueString)) ∧
      (TofukitProvider.Configure nullConfig).ResourceData =
        some ({ OutputFormat := "json", OutputPath := ".tofukit", Registry := Registry.New } :
          ProviderData Unit) ∧
      ProjectResourceFinal.writeOutputFile (none : Option (ProviderData Unit)) okOs
          (projectWithKits .null) =
        ProjectResourceFinal.writeOutputFile
          (TofukitProvider.Configure nullConfig : ConfigureResponse Unit).ResourceData okOs
          (projectWithKits .null) :=
  C20_configure_defaults yamlConfig okOs (projectWithKits .null) rfl

/-! ## C21: identifiers of kits -/

theorem string_append_left_cancel (a b c : String) (h : a ++ b = a ++ c) : b = c := by
  have h2 := congrArg String.data h
  simp only [String.data_append] at h2
  exact String.ext (List.append_cancel_left h2)

/-- C21: for plans decoded without error, the language resource, each of the six resources
of `components.go` (framework, tool, methodology, style, infrastructure, integration) and
the blueprint resource set the identifier to the kind, a dot and the name; and for one kind
two such identifiers are equal exactly when the names are. -/
theorem C21_kit_identifier_is_kind_dot_name (lreq : PlanRequest LanguageResourceModel)
    (creq : PlanRequest ComponentResourceModel) (breq : PlanRequest BlueprintResourceModel)
    (hl : hasError lreq.Diagnostics = false) (hc : hasError creq.Diagnostics = false)
    (hb : hasError breq.Diagnostics = false) :
    ((LanguageResource.Create NewLanguageResource lreq).State.map fun m => m.ID) =
        some (.value ("language" ++ "." ++ lreq.Data.Name.ValueString)) ∧
      componentResources.map (fun r => r.Kind) =
        ["framework", "tool", "methodology", "style", "infrastructure", "integration"] ∧
      (∀ r, r ∈ componentResources →
        ((ComponentResource.Create r creq).State.map fun m => m.ID) =
          some (.value (r.Kind ++ "." ++ creq.Data.Name.ValueString))) ∧
      ((BlueprintResource.Create NewBlueprintResource breq).State.map fun m => m.ID) =
        some (.value ("blueprint" ++ "." ++ breq.Data.Name.ValueString)) ∧
      ∀ kind name other : String,
        (TfString.value (kind ++ "." ++ name) = TfString.value (kind ++ "." ++ other) ↔
          name = other) := by
  refine ⟨?_, rfl, ?_, ?_, ?_⟩
  · simp only [LanguageResource.Create, hl, Bool.false_eq_true, if_false, Option.map_some']
    rfl
  · intro r _
    simp only [ComponentResource.Create, hc, Bool.false_eq_true, if_false, Option.map_some']
  · simp only [BlueprintResource.Create, hb, Bool.false_eq_true, if_false, Option.map_some']
    rfl
  · intro kind name other
    constructor
    · intro h
      have h2 : kind ++ "." ++ name = kind ++ "." ++ other := by
        injection h
      exact string_append_left_cancel (kind ++ ".") name other h2
    · intro h
      rw [h]

/-- C21 (witness): the language `python`, the component `make` and the blueprint `web`. -/
theorem C21_kit_identifier_witness :
    ((LanguageResource.Create NewLanguageResource (languagePlan "python")).State.map
        fun m => m.ID) = some (.value "language.python") ∧
      ((ComponentResource.Create NewToolResource (componentPlan "make" [])).State.map
        fun m => m.ID) = some (.value "tool.make") ∧
      ((BlueprintResource.Create NewBlueprintResource (blueprintPlan "web")).State.map
        fun m => m.ID) = some (.value "blueprint.web") := by
  obtain ⟨h1, -, h2, h3, -⟩ := C21_kit_identifier_is_kind_dot_name (languagePlan "python")
    (componentPlan "make" []) (blueprintPlan "web") rfl rfl rfl
  refine ⟨?_, ?_, ?_⟩
  · rw [h1]
    rfl
  · rw [h2 NewToolResource (by simp [componentResources])]
    rfl
  · rw [h3]
    rfl

/-! ## C23: empty verification objects -/

/-- C24 (counterexample): the kit requirement `lint` whose `instructions` attribute is a
null list is extracted with the key `name` only, and the document of a project holding it in
the kit `x` has no `instructions` key in that requirement. -/
theorem C24_null_instructions_leave_no_key :
    attrIndex noInstructionsAttrs "instructions" = some (.list .null) ∧
      kitRequirementData noInstructionsAttrs = [("name", .string "lint")] ∧
      mapGet (kitRequirementData noInstructionsAttrs) "instructions" = none ∧
      buildOutputData (projectWithKits (.value [("x", noInstructionsKit)])) =
        .ok [("project", .map [("name", .string "app"), ("description", .string ""),
            ("version", .string "1.0"), ("dependencies", .strings ["@kit.x"])]),
          ("requirements", .maps []),
          ("kits", .map [("x", .map [("id", .string "tool.make"), ("type", .string "tool"),
            ("name", .string "make"),
            ("requirements", .maps [[("name", .string "lint")]])])])] :=
  ⟨rfl, rfl, rfl, rfl⟩

theorem stringElements_eq_filterMap (elems : List AttrValue) :
    stringElements elems = elems.filterMap fun inst =>
      match inst with
      | .string (.value s) => some s
      | .string .unknown => some ""
      | _ => none := by
  unfold stringElements
  congr 1
  funext inst
  cases inst with
  | string t => cases t <;> rfl
  | _ => rfl

theorem kitRequirementData_get_instructions (reqAttrs : List (String × AttrValue)) :
    mapGet (kitRequirementData reqAttrs) "instructions" =
      match attrIndex reqAttrs "instructions" with
      | some (.list .null) => none
      | some (.list l) => some (.strings (stringElements l.Elements))
      | _ => none := by
  have hbase : ∀ attrs : List (String × AttrValue),
      mapGet (setPriorityField (setStringField [] attrs "name") attrs) "instructions" = none := by
    intro attrs
    rw [setPriorityField_get_ne _ _ _ (by decide), setStringField_get_ne _ _ _ _ (by decide)]
    rfl
  unfold kitRequirementData
  simp only []
  rw [setVerificationField_get_ne _ _ _ (by decide)]
  unfold setInstructionsField
  cases hidx : attrIndex reqAttrs "instructions" with
  | none => simpa [assertList] using hbase reqAttrs
  | some v =>
    cases v with
    | list l =>
      cases l with
      | null => simpa [assertList, TfList.IsNull] using hbase reqAttrs
      | unknown => simp [assertList, TfList.IsNull, mapGet_mapSet_self]
      | value elems => simp [assertList, TfList.IsNull, mapGet_mapSet_self]
    | _ => simpa [assertList] using hbase reqAttrs

/-- C24 (amended): a kit requirement is extracted with the key `instructions` exactly when
its `instructions` attribute is a list that is not null. A null list, a value that is not a
list and a missing attribute leave no key; a known list binds the key to the values, in
order, of its elements that are strings and not null (the empty text for an unknown
string), which is `[]` for the empty list; an unknown list binds the key to `[]`. -/
theorem C24_instructions_key_iff_list_not_null
    (reqAttrs nullAttrs knownAttrs unknownAttrs otherAttrs : List (String × AttrValue))
    (elems : List AttrValue)
    (hnull : attrIndex nullAttrs "instructions" = some (.list .null))
    (hknown : attrIndex knownAttrs "instructions" = some (.list (.value elems)))
    (hunknown : attrIndex unknownAttrs "instructions" = some (.list .unknown))
    (hother : ∀ l, attrIndex otherAttrs "instructions" ≠ some (.list l)) :
    ((∃ v, mapGet (kitRequirementData reqAttrs) "instructions" = some v) ↔
        ∃ l, attrIndex reqAttrs "instructions" = some (.list l) ∧ l ≠ .null) ∧
      mapGet (kitRequirementData nullAttrs) "instructions" = none ∧
      mapGet (kitRequirementData knownAttrs) "instructions" =
        some (.strings (elems.filterMap fun inst =>
          match inst with
          | .string (.value s) => some s
          | .string .unknown => some ""
          | _ => none)) ∧
      (elems = [] →
        mapGet (kitRequirementData knownAttrs) "instructions" = some (.strings [])) ∧
      mapGet (kitRequirementData unknownAttrs) "instructions" = some (.strings []) ∧
      mapGet (kitRequirementData otherAttrs) "instructions" = none := by
  refine ⟨?_, ?_, ?_, ?_, ?_, ?_⟩
  · rw [kitRequirementData_get_instructions]
    cases hidx : attrIndex reqAttrs "instructions" with
    | none => simp
    | some v =>
      cases v with
      | list l => cases l <;> simp
      | _ => simp
  · rw [kitRequirementData_get_instructions, hnull]
  · rw [kitRequirementData_get_instructions, hknown, ← stringElements_eq_filterMap]
    rfl
  · intro he
    rw [kitRequirementData_get_instructions, hknown, he]
    rfl
  · rw [kitRequirementData_get_instructions, hunknown]
    rfl
  · rw [kitRequirementData_get_instructions]
    cases hidx : attrIndex otherAttrs "instructions" with
    | none => rfl
    | some v =>
      cases v with
      | list l => exact absurd hidx (hother l)
      | _ => rfl

/-- C24 (witness): a requirement with a null list, one with two instructions around a null
string, one with an unknown list and one without the attribute. -/
theorem C24_instructions_key_witness :
    ((∃ v, mapGet (kitRequirementData listedInstructionsAttrs) "instructions" = some v) ↔
        ∃ l, attrIndex listedInstructionsAttrs "instructions" = some (.list l) ∧ l ≠ .null) ∧
      mapGet (kitRequirementData noInstructionsAttrs) "instructions" = none ∧
      mapGet (kitRequirementData listedInstructionsAttrs) "instructions" =
        some (.strings ["run make lint", "fix the warnings"]) ∧
      mapGet (kitRequirementData unknownInstructionsAttrs) "instructions" = some (.strings []) ∧
      mapGet (kitRequirementData nameOnlyAttrs) "instructions" = none :=
  have h := C24_instructions_key_iff_list_not_null listedInstructionsAttrs noInstructionsAttrs
    listedInstructionsAttrs unknownInstructionsAttrs nameOnlyAttrs
    [.string (.value "run make lint"), .string .null, .string (.value "fix the warnings")]
    rfl rfl rfl (by intro l h; simp [attrIndex, nameOnlyAttrs, List.lookup] at h)
  ⟨h.1, h.2.1, h.2.2.1, h.2.2.2.2.1, h.2.2.2.2.2⟩

/-! ## C25: `Create` and `Update` write the same document -/

theorem writeOutputFile_congr {V : Type} (providerData : Option (ProviderData V)) (os : Os)
    (data other : ProjectModelFinal) (hn : other.Name = data.Name)
    (hd : other.Description = data.Description) (hv : other.Version = data.Version)
    (hr : other.Requirements = data.Requirements) (hk : other.Kits = data.Kits) :
    buildOutputData other = buildOutputData data ∧
      ProjectResourceFinal.writeOutputFile providerData os other =
        ProjectResourceFinal.writeOutputFile providerData os data := by
  have hb : buildOutputData other = buildOutputData data := by
    unfold buildOutputData
    rw [hn, hd, hv, hr, hk]
  refine ⟨hb, ?_⟩
  unfold ProjectResourceFinal.writeOutputFile
  rw [hb, hn]

/-- C25: for every plan decoded without error, `Update` and `Create` return after the same
effects of the writer (`Create` adds its trace line), so they attempt the same write of the
same document to the same file; and a project model that agrees with the plan on name,
description, version, requirements and kits, whatever its identifier, yields the same
document, the same file name and the same effects of the writer. -/
theorem C25_create_and_update_write_the_same {V : Type} (r : BaseComponent V) (os : Os)
    (req : PlanRequest ProjectModelFinal) (other : ProjectModelFinal)
    (hreq : hasError req.Diagnostics = false)
    (hn : other.Name = req.Data.Name) (hd : other.Description = req.Data.Description)
    (hv : other.Version = req.Data.Version) (hr : other.Requirements = req.Data.Requirements)
    (hk : other.Kits = req.Data.Kits) :
    (∃ effects,
      ProjectResourceFinal.writeOutputFile r.ProviderData os req.Data = .ok effects ∧
      ProjectResourceFinal.Update r os req =
        .ok { Diagnostics := req.Diagnostics, State := some req.Data, Effects := effects } ∧
      ProjectResourceFinal.Create r os req =
        .ok { Diagnostics := req.Diagnostics
              State := some { req.Data with
                ID := .value ("project." ++ req.Data.Name.ValueString) }
              Effects := effects ++
                [.log .trace ("created project resource: " ++
                  "project." ++ req.Data.Name.ValueString)] }) ∧
      buildOutputData other = buildOutputData req.Data ∧
      outputFileName r.ProviderData os other = outputFileName r.ProviderData os req.Data ∧
      ProjectResourceFinal.writeOutputFile r.ProviderData os other =
        ProjectResourceFinal.writeOutputFile r.ProviderData os req.Data := by
  obtain ⟨doc, ks, -, -, hw⟩ := writeOutputFile_eq r.ProviderData os req.Data
  have hcongr := writeOutputFile_congr r.ProviderData os req.Data
    { req.Data with ID := .value ("project." ++ req.Data.Name.ValueString) } rfl rfl rfl rfl rfl
  refine ⟨⟨_, hw, ?_, ?_⟩, (writeOutputFile_congr r.ProviderData os req.Data other hn hd hv hr
    hk).1, ?_, (writeOutputFile_congr r.ProviderData os req.Data other hn hd hv hr hk).2⟩
  · unfold ProjectResourceFinal.Update
    simp only [hreq, Bool.false_eq_true, if_false, hw]
  · unfold ProjectResourceFinal.Create
    simp only [hreq, Bool.false_eq_true, if_false, hcongr.2, hw]
    rfl
  · simp only [outputFileName, hn]

/-- C25 (witness): the plan of the project `app` and the same project with the identifier of
an earlier creation. -/
theorem C25_create_and_update_witness :
    (∃ effects,
      ProjectResourceFinal.writeOutputFile
        (projectResource (none : Option (ProviderData Unit))).ProviderData okOs finalPlan.Data =
          .ok effects ∧
      ProjectResourceFinal.Update (projectResource (none : Option (ProviderData Unit))) okOs
          finalPlan =
        .ok { Diagnostics := finalPlan.Diagnostics, State := some finalPlan.Data,
              Effects := effects } ∧
      ProjectResourceFinal.Create (projectResource (none : Option (ProviderData Unit))) okOs
          finalPlan =
        .ok { Diagnostics := finalPlan.Diagnostics
              State := some { finalPlan.Data with
                ID := .value ("project." ++ finalPlan.Data.Name.ValueString) }
              Effects := effects ++
                [.log .trace ("created project resource: " ++
                  "project." ++ finalPlan.Data.Name.ValueString)] }) ∧
      buildOutputData { finalPlan.Data with ID := .value "project.app" } =
        buildOutputData finalPlan.Data ∧
      outputFileName (projectResource (none : Option (ProviderData Unit))).ProviderData okOs
          { finalPlan.Data with ID := .value "project.app" } =
        outputFileName (projectResource (none : Option (ProviderData Unit))).ProviderData okOs
          finalPlan.Data ∧
      ProjectResourceFinal.writeOutputFile
          (projectResource (none : Option (ProviderData Unit))).ProviderData okOs
          { finalPlan.Data with ID := .value "project.app" } =
        ProjectResourceFinal.writeOutputFile
          (projectResource (none : Option (ProviderData Unit))).ProviderData okOs
          finalPlan.Data :=
  C25_create_and_update_write_the_same (projectResource none) okOs finalPlan
    { finalPlan.Data with ID := .value "project.app" } rfl rfl rfl rfl rfl rfl

/-! ## C27: the final writer never panics -/

/-- C27: for every provider data, operating system and project model, the document is
built, its `requirements` entry is a list of maps and its `kits` entry a map (so the
unchecked type assertions succeed), and the writer returns its effects. -/
theorem C27_final_writer_is_total {V : Type} (providerData : Option (ProviderData V)) (os : Os)
    (data : ProjectModelFinal) :
    ∃ doc reqs kits effects, buildOutputData data = .ok doc ∧
      mapGet doc "requirements" = some (.maps reqs) ∧
      mapGet doc "kits" = some (.map kits) ∧
      addRequirements (data.Requirements.map projectRequirementData)
        (documentOf data [] [] []) =
          .ok (documentOf data [] (data.Requirements.map projectRequirementData) []) ∧
      ProjectResourceFinal.writeOutputFile providerData os data = .ok effects := by
  obtain ⟨doc, ks, hdoc, hks, hw⟩ := writeOutputFile_eq providerData os data
  have hreqs := documentRequirements_eq data
  rw [hdoc] at hreqs
  have hr : mapGet doc "requirements" =
      some (.maps (data.Requirements.map projectRequirementData)) := by
    simp only [Except.toOption, Option.bind, documentRequirements] at hreqs
    split at hreqs
    · rename_i xs hget
      rw [hget]
      cases hreqs
      rfl
    · cases hreqs
  refine ⟨doc, _, ks, _, hdoc, hr, hks, ?_, hw⟩
  rw [addRequirements_ok _ _ [] (by simp [mapGet, List.lookup, documentOf])]
  simp [mapSet, documentOf]

/-! ## C28: dependencies and kits correspond -/

theorem mapKeys_mapSet_of_not_mem {α : Type} (m : List (String × α)) (key : String) (v : α)
    (h : key ∉ mapKeys m) : mapKeys (mapSet m key v) = mapKeys m ++ [key] := by
  induction m with
  | nil => simp [mapSet, mapKeys]
  | cons e rest ih =>
    obtain ⟨k, w⟩ := e
    have hk : ¬ k = key := by
      intro hk
      apply h
      simp [mapKeys, hk]
    have hrest : key ∉ mapKeys rest := by
      intro hmem
      apply h
      simp only [mapKeys, List.map_cons, List.mem_cons]
      exact Or.inr hmem
    have ih2 := ih hrest
    simp only [mapKeys] at ih2 ⊢
    simp [mapSet, hk, ih2]

theorem foldl_kitsStep_keys (kitsMap : List (String × AttrValue)) (acc : GoMap × List String)
    (hnd : (mapKeys kitsMap).Nodup) (hdisj : ∀ k, k ∈ mapKeys kitsMap → k ∉ mapKeys acc.1) :
    mapKeys (kitsMap.foldl kitsStep acc).1 =
      mapKeys acc.1 ++ (kitsMap.filter fun e => kitEmitted e.2).map Prod.fst := by
  induction kitsMap generalizing acc with
  | nil => simp
  | cons e rest ih =>
    simp only [mapKeys, List.map_cons, List.nodup_cons] at hnd
    have hrest : (mapKeys rest).Nodup := hnd.2
    have he : e.1 ∉ mapKeys acc.1 := hdisj e.1 (by simp [mapKeys])
    rw [List.foldl_cons, kitsStep_eq]
    by_cases hem : kitEmitted e.2 = true
    · simp only [hem, if_true]
      rw [ih _ hrest]
      · simp only [mapKeys_mapSet_of_not_mem _ _ _ he, List.filter_cons, hem, if_true,
          List.map_cons, List.append_assoc, List.singleton_append]
      · intro k hk
        simp only [mapKeys_mapSet_of_not_mem _ _ _ he, List.mem_append, List.mem_singleton,
          not_or]
        refine ⟨hdisj k (by simp only [mapKeys, List.map_cons, List.mem_cons]; exact Or.inr hk),
          ?_⟩
        intro hke
        apply hnd.1
        rw [← hke]
        exact hk
    · simp only [hem, Bool.false_eq_true, if_false]
      rw [ih _ hrest]
      · simp [List.filter_cons, hem]
      · intro k hk
        exact hdisj k (by simp only [mapKeys, List.map_cons, List.mem_cons]; exact Or.inr hk)

theorem kitsLoop_keys (kitsMap : List (String × AttrValue)) (hnd : (mapKeys kitsMap).Nodup) :
    mapKeys (kitsLoop kitsMap).1 = (kitsMap.filter fun e => kitEmitted e.2).map Prod.fst := by
  unfold kitsLoop
  rw [foldl_kitsStep_keys kitsMap ([], []) hnd (by simp [mapKeys])]
  simp [mapKeys]

/-- C28: for every project whose kits map has pairwise different keys (as every Go map
has), the document is built and its `project.dependencies` is the list of `@kit.<key>` for
the keys of its `kits` map, in the same order: a string is a dependency exactly when it is
`@kit.<key>` for a key of `kits`, no dependency is repeated, and there are as many
dependencies as kits. -/
theorem C28_dependencies_match_kits (data : ProjectModelFinal)
    (hnd : (mapKeys data.Kits.Elements).Nodup) :
    ∃ doc deps kits, buildOutputData data = .ok doc ∧
      documentDependencies doc = some deps ∧ documentKits doc = some kits ∧
      deps = (mapKeys kits).map (fun key => "@kit." ++ key) ∧
      (∀ d, d ∈ deps ↔ ∃ key, key ∈ mapKeys kits ∧ d = "@kit." ++ key) ∧
      deps.Nodup ∧ (mapKeys kits).Nodup ∧ deps.length = kits.length := by
  have hs := buildOutputData_shape data
  have key : ∀ (deps : List String) (kits : GoMap),
      deps = (mapKeys kits).map (fun key => "@kit." ++ key) → (mapKeys kits).Nodup →
      (∀ d, d ∈ deps ↔ ∃ key, key ∈ mapKeys kits ∧ d = "@kit." ++ key) ∧
        deps.Nodup ∧ (mapKeys kits).Nodup ∧ deps.length = kits.length := by
    intro deps kits hdeps hkn
    refine ⟨?_, ?_, hkn, ?_⟩
    · intro d
      rw [hdeps]
      simp only [List.mem_map]
      constructor
      · rintro ⟨k, hk, rfl⟩
        exact ⟨k, hk, rfl⟩
      · rintro ⟨k, hk, rfl⟩
        exact ⟨k, hk, rfl⟩
    · rw [hdeps]
      exact List.Nodup.map (fun (a b : String) (h : "@kit." ++ a = "@kit." ++ b) =>
        kit_key_injective a b h) hkn
    · rw [hdeps]
      simp [mapKeys]
  by_cases hc : (!data.Kits.IsNull && !data.Kits.IsUnknown) = true
  · rw [if_pos hc] at hs
    have hk := kitsLoop_keys data.Kits.Elements hnd
    have hd : (kitsLoop data.Kits.Elements).2 =
        (mapKeys (kitsLoop data.Kits.Elements).1).map (fun key => "@kit." ++ key) := by
      rw [kitsLoop_snd, hk, List.map_map]
      rfl
    have hkn : (mapKeys (kitsLoop data.Kits.Elements).1).Nodup := by
      rw [hk]
      exact List.Nodup.sublist (List.Sublist.map _ (List.filter_sublist _)) hnd
    exact ⟨_, _, _, hs, rfl, rfl, hd, key _ _ hd hkn⟩
  · rw [if_neg hc] at hs
    exact ⟨_, [], [], hs, rfl, rfl, rfl, key [] [] rfl (by simp [mapKeys])⟩

/-- C28 (witness): the project whose kits map binds `a` to a kit, `b` to a kit without any
attribute set and `c` to a kit. -/
theorem C28_dependencies_match_kits_witness :
    ∃ doc deps kits,
      buildOutputData (projectWithKits
        (.value [("a", sampleKit), ("b", emptyKit), ("c", sampleKit)])) = .ok doc ∧
      documentDependencies doc = some deps ∧ documentKits doc = some kits ∧
      deps = (mapKeys kits).map (fun key => "@kit." ++ key) ∧
      (∀ d, d ∈ deps ↔ ∃ key, key ∈ mapKeys kits ∧ d = "@kit." ++ key) ∧
      deps.Nodup ∧ (mapKeys kits).Nodup ∧ deps.length = kits.length :=
  C28_dependencies_match_kits
    (projectWithKits (.value [("a", sampleKit), ("b", emptyKit), ("c", sampleKit)]))
    (by simp [projectWithKits, TfMap.Elements, mapKeys])

/-! ## C30: empty output path -/

theorem simplifiedWriteOutputFile_empty_path {V : Type} (provData : ProviderData V) (os : Os)
    (data : ProjectModelSimplified) (hp : provData.OutputPath = "") :
    ProjectResourceSimplified.writeOutputFile (some provData) os data = .ok [] := by
  simp [ProjectResourceSimplified.writeOutputFile, ProviderData.GetOutputPath, hp]

theorem autoWriteOutputFile_empty_path {V : Type} (provData : ProviderData V) (os : Os)
    (data : ProjectModelAuto) (hp : provData.OutputPath = "") :
    ProjectResourceAuto.writeOutputFile (some provData) os data = .ok [] := by
  simp [ProjectResourceAuto.writeOutputFile, ProviderData.GetOutputPath, hp]

theorem finalWriteOutputFile_empty_path {V : Type} (provData : ProviderData V) (os : Os)
    (data : ProjectModelFinal) (hp : provData.OutputPath = "") :
    ProjectResourceFinal.writeOutputFile (some provData) os data = .ok [] := by
  simp [ProjectResourceFinal.writeOutputFile, ProviderData.GetOutputPath, hp]

/-- C30: when the configured output path is the empty string, the writers of the final,
the auto and the simplified project resource return without any effect, for every project
model and operating system; and for plans decoded without error the `Create` and `Update`
of the three resources return with the state set and no effect that touches the file
system. -/
theorem C30_empty_path_writes_nothing {V : Type} (r : BaseComponent V)
    (provData : ProviderData V) (os : Os)
    (freq : PlanRequest ProjectModelFinal) (areq : PlanRequest ProjectModelAuto)
    (sreq : PlanRequest ProjectModelSimplified)
    (hr : r.ProviderData = some provData) (hp : provData.OutputPath = "")
    (hf : hasError freq.Diagnostics = false) (ha : hasError areq.Diagnostics = false)
    (hs : hasError sreq.Diagnostics = false) :
    (∀ data, ProjectResourceFinal.writeOutputFile (some provData) os data = .ok []) ∧
      (∀ data, ProjectResourceAuto.writeOutputFile (some provData) os data = .ok []) ∧
      (∀ data, ProjectResourceSimplified.writeOutputFile (some provData) os data = .ok []) ∧
      (∃ resp, ProjectResourceFinal.Create r os freq = .ok resp ∧ resp.State.isSome = true ∧
        resp.Effects.all (fun eff => !eff.touchesFiles) = true) ∧
      (∃ resp, ProjectResourceFinal.Update r os freq = .ok resp ∧ resp.State.isSome = true ∧
        resp.Effects.all (fun eff => !eff.touchesFiles) = true) ∧
      (∃ resp, ProjectResourceAuto.Create r os areq = .ok resp ∧ resp.State.isSome = true ∧
        resp.Effects.all (fun eff => !eff.touchesFiles) = true) ∧
      (∃ resp, ProjectResourceAuto.Update r os areq = .ok resp ∧ resp.State.isSome = true ∧
        resp.Effects.all (fun eff => !eff.touchesFiles) = true) ∧
      (∃ resp, ProjectResourceSimplified.Create r os sreq = .ok resp ∧
        resp.State.isSome = true ∧ resp.Effects.all (fun eff => !eff.touchesFiles) = true) ∧
      (∃ resp, ProjectResourceSimplified.Update r os sreq = .ok resp ∧
        resp.State.isSome = true ∧ resp.Effects.all (fun eff => !eff.touchesFiles) = true) := by
  refine ⟨fun data => finalWriteOutputFile_empty_path provData os data hp,
    fun data => autoWriteOutputFile_empty_path provData os data hp,
    fun data => simplifiedWriteOutputFile_empty_path provData os data hp, ?_, ?_, ?_, ?_, ?_, ?_⟩
  · unfold ProjectResourceFinal.Create
    simp only [hf, Bool.false_eq_true, if_false, hr,
      finalWriteOutputFile_empty_path provData os _ hp]
    exact ⟨_, rfl, rfl, rfl⟩
  · unfold ProjectResourceFinal.Update
    simp only [hf, Bool.false_eq_true, if_false, hr,
      finalWriteOutputFile_empty_path provData os _ hp]
    exact ⟨_, rfl, rfl, rfl⟩
  · unfold ProjectResourceAuto.Create
    simp only [ha, Bool.false_eq_true, if_false, hr,
      autoWriteOutputFile_empty_path provData os _ hp]
    exact ⟨_, rfl, rfl, rfl⟩
  · unfold ProjectResourceAuto.Update
    simp only [ha, Bool.false_eq_true, if_false, hr,
      autoWriteOutputFile_empty_path provData os _ hp]
    exact ⟨_, rfl, rfl, rfl⟩
  · unfold ProjectResourceSimplified.Create
    simp only [hs, Bool.false_eq_true, if_false, hr,
      simplifiedWriteOutputFile_empty_path provData os _ hp]
    exact ⟨_, rfl, rfl, rfl⟩
  · unfold ProjectResourceSimplified.Update
    simp only [hs, Bool.false_eq_true, if_false, hr,
      simplifiedWriteOutputFile_empty_path provData os _ hp]
    exact ⟨_, rfl, rfl, rfl⟩

/-- C30 (witness): the provider data `silentData` and the plans of the three projects. -/
theorem C30_empty_path_witness :
    (∀ data, ProjectResourceFinal.writeOutputFile (some silentData) okOs data = .ok []) ∧
      (∀ data, ProjectResourceAuto.writeOutputFile (some silentData) okOs data = .ok []) ∧
      (∀ data, ProjectResourceSimplified.writeOutputFile (some silentData) okOs data = .ok []) ∧
      (∃ resp, ProjectResourceFinal.Create (projectResource (some silentData)) okOs finalPlan =
          .ok resp ∧ resp.State.isSome = true ∧
        resp.Effects.all (fun eff => !eff.touchesFiles) = true) ∧
      (∃ resp, ProjectResourceFinal.Update (projectResource (some silentData)) okOs finalPlan =
          .ok resp ∧ resp.State.isSome = true ∧
        resp.Effects.all (fun eff => !eff.touchesFiles) = true) ∧
      (∃ resp, ProjectResourceAuto.Create (projectResource (some silentData)) okOs appPlan =
          .ok resp ∧ resp.State.isSome = true ∧
        resp.Effects.all (fun eff => !eff.touchesFiles) = true) ∧
      (∃ resp, ProjectResourceAuto.Update (projectResource (some silentData)) okOs appPlan =
          .ok resp ∧ resp.State.isSome = true ∧
        resp.Effects.all (fun eff => !eff.touchesFiles) = true) ∧
      (∃ resp, ProjectResourceSimplified.Create (projectResource (some silentData)) okOs
          simplifiedPlan = .ok resp ∧ resp.State.isSome = true ∧
        resp.Effects.all (fun eff => !eff.touchesFiles) = true) ∧
      (∃ resp, ProjectResourceSimplified.Update (projectResource (some silentData)) okOs
          simplifiedPlan = .ok resp ∧ resp.State.isSome = true ∧
        resp.Effects.all (fun eff => !eff.touchesFiles) = true) :=
  C30_empty_path_writes_nothing (projectResource (some silentData)) silentData okOs finalPlan
    appPlan simplifiedPlan rfl rfl rfl rfl rfl

/-! ## C29: extraction of an encoded kit -/

theorem requirementToObjectValue_eq (r : RequirementModel) :
    r.ToObjectValue = .ok (.value (encodedRequirementAttrs r)) := by
  unfold RequirementModel.ToObjectValue encodedRequirementAttrs
  cases r.Verification <;> rfl

theorem requirementValues_eq (reqs : List RequirementModel) :
    requirementValues reqs =
      .ok (reqs.map fun r => AttrValue.object (.value (encodedRequirementAttrs r))) := by
  induction reqs with
  | nil => rfl
  | cons r rest ih => simp [requirementValues, requirementToObjectValue_eq, ih]

theorem stringElements_cons_string (inst : TfString) (elems : List AttrValue) :
    stringElements (AttrValue.string inst :: elems) =
      if inst.IsNull then stringElements elems
      else inst.ValueString :: stringElements elems := by
  cases hn : inst.IsNull <;> simp [stringElements, List.filterMap_cons, assertString, hn]

theorem nonNullInstructions_cons (inst : TfString) (insts : List TfString) :
    nonNullInstructions (inst :: insts) =
      if inst.IsNull then nonNullInstructions insts
      else inst.ValueString :: nonNullInstructions insts := by
  cases hn : inst.IsNull <;> simp [nonNullInstructions, List.filterMap_cons, hn]

theorem stringElements_map_string (insts : List TfString) :
    stringElements (insts.map AttrValue.string) = nonNullInstructions insts := by
  induction insts with
  | nil => rfl
  | cons inst rest ih =>
    rw [List.map_cons, stringElements_cons_string, nonNullInstructions_cons, ih]

theorem kitRequirements_cons_object (attrs : List (String × AttrValue))
    (elems : List AttrValue) :
    kitRequirements (AttrValue.object (.value attrs) :: elems) =
      if (kitRequirementData attrs).length > 0 then
        kitRequirementData attrs :: kitRequirements elems
      else kitRequirements elems := by
  by_cases hl : (kitRequirementData attrs).length > 0
  · simp [kitRequirements, List.filterMap_cons, assertObject, TfObject.IsNull,
      TfObject.Attributes, hl]
  · simp [kitRequirements, List.filterMap_cons, assertObject, TfObject.IsNull,
      TfObject.Attributes, hl]

theorem kitRequirementData_encoded (r : RequirementModel) (hname : r.Name.IsNull = false) :
    mapGet (kitRequirementData (encodedRequirementAttrs r)) "name" =
        some (.string r.Name.ValueString) ∧
      mapGet (kitRequirementData (encodedRequirementAttrs r)) "instructions" =
        some (.strings (nonNullInstructions r.Instructions)) ∧
      (r.Verification = none →
        mapGet (kitRequirementData (encodedRequirementAttrs r)) "verification" = none) := by
  refine ⟨?_, ?_, ?_⟩
  · unfold kitRequirementData
    simp only []
    rw [setVerificationField_get_ne _ _ _ (by decide),
      setInstructionsField_get_ne _ _ _ (by decide), setPriorityField_get_ne _ _ _ (by decide)]
    simp [setStringField, encodedRequirementAttrs, attrIndex, List.lookup, assertString, hname,
      mapSet, mapGet]
  · unfold kitRequirementData
    simp only []
    rw [setVerificationField_get_ne _ _ _ (by decide)]
    have hattr : attrIndex (encodedRequirementAttrs r) "instructions" =
        some (.list (.value (r.Instructions.map AttrValue.string))) := by
      simp [encodedRequirementAttrs, attrIndex, List.lookup]
    simp only [setInstructionsField, hattr, assertList, TfList.IsNull, TfList.Elements]
    rw [stringElements_map_string]
    exact mapGet_mapSet_self _ _ _
  · intro hver
    have hattr : attrIndex (encodedRequirementAttrs r) "verification" =
        some (.object .null) := by
      simp [encodedRequirementAttrs, attrIndex, List.lookup, hver]
    unfold kitRequirementData
    simp only []
    have hv : ∀ m, setVerificationField m (encodedRequirementAttrs r) = m := by
      intro m
      simp [setVerificationField, hattr, assertObject, TfObject.IsNull]
    rw [hv, setInstructionsField_get_ne _ _ _ (by decide),
      setPriorityField_get_ne _ _ _ (by decide), setStringField_get_ne _ _ _ _ (by decide)]
    rfl

theorem kitRequirements_encoded (reqs : List RequirementModel)
    (hreq : ∀ r, r ∈ reqs → r.Name.IsNull = false) :
    kitRequirements (reqs.map fun r => AttrValue.object (.value (encodedRequirementAttrs r))) =
      reqs.map fun r => kitRequirementData (encodedRequirementAttrs r) := by
  induction reqs with
  | nil => rfl
  | cons r rest ih =>
    have hr := hreq r (by simp)
    have hrest := ih (fun x hx => hreq x (by simp [hx]))
    have hlen : 0 < (kitRequirementData (encodedRequirementAttrs r)).length := by
      have hget := (kitRequirementData_encoded r hr).1
      cases hdata : kitRequirementData (encodedRequirementAttrs r) with
      | nil =>
        rw [hdata] at hget
        simp [mapGet] at hget
      | cons e tl => simp
    rw [List.map_cons, kitRequirements_cons_object, if_pos hlen, hrest, List.map_cons]

theorem kitData_encoded (id type_ name description version : TfString)
    (reqValues : List AttrValue) (hid : id.IsNull = false) (ht : type_.IsNull = false)
    (hn : name.IsNull = false) (hd : description.IsNull = false)
    (hv : version.IsNull = false) :
    kitData [("id", .string id), ("type", .string type_), ("name", .string name),
        ("description", .string description), ("version", .string version),
        ("requirements", .list (.value reqValues))] =
      [("id", .string id.ValueString), ("type", .string type_.ValueString),
        ("name", .string name.ValueString), ("description", .string description.ValueString),
        ("version", .string version.ValueString)] ++
      (if (kitRequirements reqValues).length > 0 then
        [("requirements", .maps (kitRequirements reqValues))] else []) := by
  unfold kitData setRequirementsField
  by_cases hl : (kitRequirements reqValues).length > 0
  · simp [setStringField, attrIndex, List.lookup, assertString, assertList, hid, ht, hn, hd, hv,
      mapSet, TfList.IsNull, TfList.Elements, hl]
  · simp [setStringField, attrIndex, List.lookup, assertString, assertList, hid, ht, hn, hd, hv,
      mapSet, TfList.IsNull, TfList.Elements, hl]

/-- C29: for every kit whose identifier, type, name, description and version are not null
and whose requirements have names that are not null, the encoding succeeds and the kit
extraction of the final writer applied to it yields exactly the five fields with the kit's
values, followed, when the kit has requirements, by a `requirements` list of the same
length whose entry at each position has the name of the requirement at that position, its
non-null instructions in order, and a `verification` key only if the requirement has a
verification. -/
theorem C29_extraction_of_encoded_kit (k : KitModel)
    (hid : k.ID.IsNull = false) (ht : k.Type_.IsNull = false) (hn : k.Name.IsNull = false)
    (hd : k.Description.IsNull = false) (hv : k.Version.IsNull = false)
    (hreq : ∀ r, r ∈ k.Requirements → r.Name.IsNull = false) :
    ∃ (obj : TfObject AttrValue) (reqs : List GoMap), k.ToObjectValue = .ok obj ∧
      kitData obj.Attributes =
        [("id", .string k.ID.ValueString), ("type", .string k.Type_.ValueString),
          ("name", .string k.Name.ValueString),
          ("description", .string k.Description.ValueString),
          ("version", .string k.Version.ValueString)] ++
        (if k.Requirements = [] then [] else [("requirements", .maps reqs)]) ∧
      reqs.length = k.Requirements.length ∧
      ∀ (i : Nat) (r : RequirementModel), k.Requirements[i]? = some r →
        ∃ e : GoMap, reqs[i]? = some e ∧
          mapGet e "name" = some (.string r.Name.ValueString) ∧
          mapGet e "instructions" = some (.strings (nonNullInstructions r.Instructions)) ∧
          ((mapGet e "verification").isSome = true → r.Verification.isSome = true) := by
  have hobj : k.ToObjectValue = .ok (.value [("id", .string k.ID), ("type", .string k.Type_),
      ("name", .string k.Name), ("description", .string k.Description),
      ("version", .string k.Version),
      ("requirements", .list (.value (k.Requirements.map fun r =>
        AttrValue.object (.value (encodedRequirementAttrs r)))))]) := by
    unfold KitModel.ToObjectValue
    rw [requirementValues_eq]
  refine ⟨_, k.Requirements.map fun r => kitRequirementData (encodedRequirementAttrs r),
    hobj, ?_, by simp, ?_⟩
  · simp only [TfObject.Attributes]
    rw [kitData_encoded _ _ _ _ _ _ hid ht hn hd hv, kitRequirements_encoded _ hreq]
    cases hk : k.Requirements with
    | nil => simp
    | cons r rest => simp
  · intro i r hi
    have hmem : r ∈ k.Requirements := List.getElem?_mem hi
    obtain ⟨h1, h2, h3⟩ := kitRequirementData_encoded r (hreq r hmem)
    refine ⟨_, ?_, h1, h2, ?_⟩
    · rw [List.getElem?_map, hi]
      rfl
    · intro hsome
      cases hver : r.Verification with
      | none =>
        rw [h3 hver] at hsome
        simp at hsome
      | some v => rfl

/-- C29 (witness): the kit `tool.make` with two requirements, the second with a
verification and a null instruction. -/
theorem C29_extraction_witness :
    ∃ (obj : TfObject AttrValue) (reqs : List GoMap),
      encodedSampleKit.ToObjectValue = .ok obj ∧
      kitData obj.Attributes =
        [("id", .string encodedSampleKit.ID.ValueString),
          ("type", .string encodedSampleKit.Type_.ValueString),
          ("name", .string encodedSampleKit.Name.ValueString),
          ("description", .string encodedSampleKit.Description.ValueString),
          ("version", .string encodedSampleKit.Version.ValueString)] ++
        (if encodedSampleKit.Requirements = [] then [] else [("requirements", .maps reqs)]) ∧
      reqs.length = encodedSampleKit.Requirements.length ∧
      ∀ (i : Nat) (r : RequirementModel), encodedSampleKit.Requirements[i]? = some r →
        ∃ e : GoMap, reqs[i]? = some e ∧
          mapGet e "name" = some (.string r.Name.ValueString) ∧
          mapGet e "instructions" = some (.strings (nonNullInstructions r.Instructions)) ∧
          ((mapGet e "verification").isSome = true → r.Verification.isSome = true) :=
  C29_extraction_of_encoded_kit encodedSampleKit rfl rfl rfl rfl rfl (by decide)

/-! ## C26: reproducible output of the auto writer -/

theorem lexLe_total (a b : List Nat) : lexLe a b = true ∨ lexLe b a = true := by
  induction a generalizing b with
  | nil => simp [lexLe]
  | cons x xs ih =>
    cases b with
    | nil => simp [lexLe]
    | cons y ys =>
      simp only [lexLe]
      by_cases h1 : x < y
      · simp [h1]
      · by_cases h2 : y < x
        · simp [h2]
        · simp only [h1, h2, if_false]
          exact ih ys

theorem lexLe_trans (a b c : List Nat) (h1 : lexLe a b = true) (h2 : lexLe b c = true) :
    lexLe a c = true := by
  induction a generalizing b c with
  | nil => simp [lexLe]
  | cons x xs ih =>
    cases b with
    | nil => simp [lexLe] at h1
    | cons y ys =>
      cases c with
      | nil => simp [lexLe] at h2
      | cons z zs =>
        simp only [lexLe] at h1 h2 ⊢
        by_cases hxy : x < y
        · by_cases hyz : y < z
          · have hxz : x < z := by omega
            simp [hxz]
          · by_cases hzy : z < y
            · simp [hyz, hzy] at h2
            · have hxz : x < z := by omega
              simp [hxz]
        · by_cases hyx : y < x
          · simp [hxy, hyx] at h1
          · simp only [hxy, hyx, if_false] at h1
            have hxe : x = y := by omega
            subst hxe
            by_cases hyz : x < z
            · simp [hyz]
            · by_cases hzy : z < x
              · simp [hyz, hzy] at h2
              · simp only [hyz, hzy, if_false] at h2 ⊢
                exact ih ys zs h1 h2

theorem lexLe_antisymm (a b : List Nat) (h1 : lexLe a b = true) (h2 : lexLe b a = true) :
    a = b := by
  induction a generalizing b with
  | nil =>
    cases b with
    | nil => rfl
    | cons y ys => simp [lexLe] at h2
  | cons x xs ih =>
    cases b with
    | nil => simp [lexLe] at h1
    | cons y ys =>
      simp only [lexLe] at h1 h2
      by_cases hxy : x < y
      · have hyx : ¬ y < x := by omega
        simp [hxy, hyx] at h2
      · by_cases hyx : y < x
        · simp [hxy, hyx] at h1
        · simp only [hxy, hyx, if_false] at h1 h2
          have hxe : x = y := by omega
          rw [hxe, ih ys h1 h2]

theorem keyLe_antisymm (a b : String) (h1 : keyLe a b = true) (h2 : keyLe b a = true) :
    a = b := by
  have h := lexLe_antisymm _ _ h1 h2
  have hinj : Function.Injective Char.toNat := by
    intro c d hcd
    exact Char.ext (UInt32.ext (by simpa [Char.toNat] using hcd))
  exact String.ext (List.map_injective_iff.mpr hinj h)

theorem sorted_by_key_unique {α : Type} (s1 s2 : List (String × α))
    (hs1 : s1.Sorted fun a b => keyLe a.1 b.1 = true)
    (hs2 : s2.Sorted fun a b => keyLe a.1 b.1 = true)
    (hp : s1.Perm s2) (hnd : (s1.map Prod.fst).Nodup) : s1 = s2 := by
  induction s1 generalizing s2 with
  | nil => exact (List.Perm.nil_eq hp)
  | cons a t1 ih =>
    cases s2 with
    | nil =>
      have hnil := List.Perm.nil_eq hp.symm
      cases hnil
    | cons b t2 =>
      simp only [List.map_cons, List.nodup_cons] at hnd
      have hab : a = b := by
        by_contra hne
        have ha : a ∈ b :: t2 := hp.subset (by simp)
        have hb : b ∈ a :: t1 := hp.symm.subset (by simp)
        have ha2 : a ∈ t2 := by
          rcases List.mem_cons.mp ha with h | h
          · exact absurd h hne
          · exact h
        have hb2 : b ∈ t1 := by
          rcases List.mem_cons.mp hb with h | h
          · exact absurd h.symm hne
          · exact h
        have hba : keyLe b.1 a.1 = true := List.rel_of_sorted_cons hs2 a ha2
        have hab2 : keyLe a.1 b.1 = true := List.rel_of_sorted_cons hs1 b hb2
        have hk : a.1 = b.1 := keyLe_antisymm _ _ hab2 hba
        apply hnd.1
        rw [hk]
        exact List.mem_map_of_mem Prod.fst hb2
      subst hab
      rw [ih t2 (List.Sorted.of_cons hs1) (List.Sorted.of_cons hs2) (List.Perm.cons_inv hp)
        hnd.2]

theorem sortEntries_sorted {α : Type} (l : List (String × α)) :
    (sortEntries l).Sorted fun a b => keyLe a.1 b.1 = true := by
  haveI : IsTotal (String × α) (fun a b => keyLe a.1 b.1 = true) :=
    ⟨fun a b => lexLe_total _ _⟩
  haveI : IsTrans (String × α) (fun a b => keyLe a.1 b.1 = true) :=
    ⟨fun a b c h1 h2 => lexLe_trans _ _ _ h1 h2⟩
  exact List.sorted_insertionSort _ _

theorem sortEntries_perm {α : Type} (l1 l2 : List (String × α)) (hp : l1.Perm l2)
    (hnd : (l1.map Prod.fst).Nodup) : sortEntries l1 = sortEntries l2 := by
  apply sorted_by_key_unique _ _ (sortEntries_sorted l1) (sortEntries_sorted l2)
  · exact (List.perm_insertionSort _ _).trans (hp.trans (List.perm_insertionSort _ _).symm)
  · exact (List.Perm.nodup_iff (List.Perm.map _ (List.perm_insertionSort _ _))).mpr hnd

theorem marshalFormEntries_eq_map (m : List (String × GoValue)) :
    marshalFormEntries m = m.map fun e => (e.1, e.2.marshalForm) := by
  induction m with
  | nil => simp [marshalFormEntries]
  | cons e rest ih =>
    obtain ⟨k, v⟩ := e
    simp [marshalFormEntries, ih]

theorem marshalFormEntries_mapSet (m : List (String × GoValue)) (key : String) (v : GoValue) :
    marshalFormEntries (mapSet m key v) = mapSet (marshalFormEntries m) key v.marshalForm := by
  induction m with
  | nil => simp [mapSet, marshalFormEntries]
  | cons e rest ih =>
    obtain ⟨k, w⟩ := e
    by_cases hk : k = key
    · simp [mapSet, marshalFormEntries, hk]
    · simp [mapSet, marshalFormEntries, hk, ih]

theorem mapSet_of_not_mem {α : Type} (m : List (String × α)) (key : String) (v : α)
    (h : key ∉ mapKeys m) : mapSet m key v = m ++ [(key, v)] := by
  induction m with
  | nil => simp [mapSet]
  | cons e rest ih =>
    obtain ⟨k, w⟩ := e
    have hk : ¬ k = key := by
      intro hk
      apply h
      simp [mapKeys, hk]
    have hrest : key ∉ mapKeys rest := by
      intro hmem
      apply h
      simp only [mapKeys, List.map_cons, List.mem_cons]
      exact Or.inr hmem
    simp [mapSet, hk, ih hrest]

theorem autoKitEntries_keys_subset (kitsMap : List (String × AttrValue)) (k : String)
    (h : k ∈ mapKeys (autoKitEntries kitsMap)) : k ∈ mapKeys kitsMap := by
  simp only [mapKeys, autoKitEntries, List.mem_map, List.mem_filterMap] at h ⊢
  obtain ⟨e, ⟨entry, hmem, hsome⟩, rfl⟩ := h
  refine ⟨entry, hmem, ?_⟩
  split at hsome
  · cases hsome
    rfl
  · cases hsome

theorem foldl_autoStep (kitsMap : List (String × AttrValue)) (acc : GoMap)
    (hnd : (mapKeys kitsMap).Nodup) (hdisj : ∀ k, k ∈ mapKeys kitsMap → k ∉ mapKeys acc) :
    kitsMap.foldl (fun (kitsOutput : GoMap) (entry : String × AttrValue) =>
        match assertObject (some entry.2) with
        | some kitObj =>
          mapSet kitsOutput entry.1 (.map (ProjectResourceAuto.extractKitData kitObj.Attributes))
        | none => kitsOutput) acc =
      acc ++ autoKitEntries kitsMap := by
  induction kitsMap generalizing acc with
  | nil => simp [autoKitEntries]
  | cons e rest ih =>
    simp only [mapKeys, List.map_cons, List.nodup_cons] at hnd
    have he : e.1 ∉ mapKeys acc := hdisj e.1 (by simp [mapKeys])
    have hrest : ∀ k, k ∈ mapKeys rest → k ∉ mapKeys acc := fun k hk =>
      hdisj k (by simp only [mapKeys, List.map_cons, List.mem_cons]; exact Or.inr hk)
    rw [List.foldl_cons]
    cases hobj : assertObject (some e.2) with
    | none =>
      simp only []
      rw [ih acc hnd.2 hrest]
      simp [autoKitEntries, List.filterMap_cons, hobj]
    | some kitObj =>
      simp only []
      rw [mapSet_of_not_mem _ _ _ he, ih _ hnd.2]
      · simp [autoKitEntries, List.filterMap_cons, hobj]
      · intro k hk
        simp only [mapKeys, List.map_append, List.map_cons, List.map_nil, List.mem_append,
          List.mem_singleton, not_or]
        refine ⟨hrest k hk, ?_⟩
        intro hke
        apply hnd.1
        rw [← hke]
        exact hk

theorem autoKitEntries_perm (kits1 kits2 : List (String × AttrValue)) (hp : kits1.Perm kits2) :
    (autoKitEntries kits1).Perm (autoKitEntries kits2) :=
  List.Perm.filterMap _ hp

theorem autoKitEntries_nodup (kitsMap : List (String × AttrValue))
    (hnd : (mapKeys kitsMap).Nodup) : (mapKeys (autoKitEntries kitsMap)).Nodup := by
  induction kitsMap with
  | nil => simp [autoKitEntries, mapKeys]
  | cons e rest ih =>
    simp only [mapKeys, List.map_cons, List.nodup_cons] at hnd
    have hrest := ih hnd.2
    cases hobj : assertObject (some e.2) with
    | none =>
      have h : autoKitEntries (e :: rest) = autoKitEntries rest := by
        simp [autoKitEntries, List.filterMap_cons, hobj]
      rw [h]
      exact hrest
    | some kitObj =>
      have h : autoKitEntries (e :: rest) =
          (e.1, .map (ProjectResourceAuto.extractKitData kitObj.Attributes)) ::
            autoKitEntries rest := by
        simp [autoKitEntries, List.filterMap_cons, hobj]
      rw [h]
      simp only [mapKeys, List.map_cons, List.nodup_cons]
      exact ⟨fun hmem => hnd.1 (autoKitEntries_keys_subset rest e.1 hmem), hrest⟩

theorem buildAutoOutputData_value (data : ProjectModelAuto)
    (kitsMap : List (String × AttrValue)) (hnd : (mapKeys kitsMap).Nodup) :
    buildAutoOutputData { data with Kits := .value kitsMap } =
      .ok (mapSet (addDependsOn data.DependsOnRefs
        [("project", .map [("name", .string data.Name.ValueString),
            ("description", .string data.Description.ValueString),
            ("version", .string data.Version.ValueString)]),
          ("requirements", .maps (data.Requirements.map autoRequirementData)),
          ("depends_on", .strings []),
          ("kits", .map [])]) "kits" (.map (autoKitEntries kitsMap))) := by
  unfold buildAutoOutputData
  simp only []
  rw [addRequirements_ok _ _ [] (by simp [mapGet, List.lookup])]
  simp only [addAutoKits, TfMap.IsNull, TfMap.IsUnknown, TfMap.Elements, Bool.not_false,
    Bool.and_self, if_true]
  rw [foldl_autoStep kitsMap [] hnd (by simp [mapKeys])]
  simp [mapSet]

/-- C26: for every auto project model and every two iterations of the same kits map (two
orders of its entries, the keys being pairwise different), the documents built are written
alike by `json.MarshalIndent`, which sorts the keys of every map; and `Create`, which
replaces the kits map by the empty map, returns the same response whatever the kits map of
the plan. -/
theorem C26_auto_output_is_reproducible {V : Type} (r : BaseComponent V) (os : Os)
    (data : ProjectModelAuto) (kits1 kits2 : List (String × AttrValue))
    (hperm : kits1.Perm kits2) (hnd : (mapKeys kits1).Nodup) :
    (∃ doc1 doc2,
      buildAutoOutputData { data with Kits := .value kits1 } = .ok doc1 ∧
      buildAutoOutputData { data with Kits := .value kits2 } = .ok doc2 ∧
      marshalForm doc1 = marshalForm doc2) ∧
      ∀ diags, ProjectResourceAuto.Create r os
          { Diagnostics := diags, Data := { data with Kits := .value kits1 } } =
        ProjectResourceAuto.Create r os
          { Diagnostics := diags, Data := { data with Kits := .value kits2 } } := by
  have hnd2 : (mapKeys kits2).Nodup :=
    (List.Perm.nodup_iff (List.Perm.map Prod.fst hperm)).mp hnd
  refine ⟨⟨_, _, buildAutoOutputData_value data kits1 hnd,
    buildAutoOutputData_value data kits2 hnd2, ?_⟩, fun diags => rfl⟩
  unfold marshalForm
  rw [marshalFormEntries_mapSet, marshalFormEntries_mapSet]
  have hkits : (GoValue.map (autoKitEntries kits1)).marshalForm =
      (GoValue.map (autoKitEntries kits2)).marshalForm := by
    simp only [GoValue.marshalForm]
    rw [marshalFormEntries_eq_map, marshalFormEntries_eq_map]
    rw [sortEntries_perm _ _ (List.Perm.map _ (autoKitEntries_perm kits1 kits2 hperm))]
    have hn := autoKitEntries_nodup kits1 hnd
    simpa [mapKeys, List.map_map, Function.comp] using hn
  rw [hkits]

/-- C26 (witness): the auto project `app` with the kits `a` and `b` iterated in the two
orders. -/
theorem C26_auto_output_witness :
    (∃ doc1 doc2,
      buildAutoOutputData { autoProjectWithKits .null with Kits := .value twoKits } = .ok doc1 ∧
      buildAutoOutputData { autoProjectWithKits .null with Kits := .value twoKitsReversed } =
        .ok doc2 ∧
      marshalForm doc1 = marshalForm doc2) ∧
      ∀ diags, ProjectResourceAuto.Create (projectResource (none : Option (ProviderData Unit)))
          okOs { Diagnostics := diags
                 Data := { autoProjectWithKits .null with Kits := .value twoKits } } =
        ProjectResourceAuto.Create (projectResource (none : Option (ProviderData Unit))) okOs
          { Diagnostics := diags
            Data := { autoProjectWithKits .null with Kits := .value twoKitsReversed } } :=
  C26_auto_output_is_reproducible (projectResource none) okOs (autoProjectWithKits .null)
    twoKits twoKitsReversed (List.Perm.swap _ _ _) (by simp [twoKits, mapKeys])

end Tofukit
